import Mathlib

/-!
# Verification of the 5300-Rook relational engine against its specification

Shallow embedding of the repository's storage and execution layers:

* `SlottedPage` (heap_storage.cpp) — modelled byte-exactly: the block is a
  function `Nat → Nat` of byte values, 16-bit header fields are read and
  written little-endian (the source reads `*(u16*)` on an x86 host).
  The repository contains two complete copies of the slotted-page code
  ("copy A", part_003 lines 36-213, and "copy B", part_003 lines 860-1005)
  plus a mostly-stubbed third copy ("copy C", part_003 lines 1335-1430);
  where copies differ both are embedded, suffixed `A`/`B`/`C`.
* `HeapTable` marshal/unmarshal and `select(where)` (part_003).
* `BTreeIndex::lookup` (btree.cpp) with the leaf/interior search routines
  modelled from the spec (their sources are not in the repository snapshot).
* `SQLExec` fragments: `get_where_conjunction`, `show_tables` (both
  variants), `drop_table` (both variants), `insert` (part_003, SQLExec.cpp).
-/

set_option maxRecDepth 100000

namespace Rook

/-! ## Byte-level primitives

A block is a total function from byte offset to byte value.  Reads mask
with `% 256` (memory bytes are 8-bit); `getN`/`putN` are the source's
16-bit little-endian accessors `SlottedPage::get_n` / `put_n`. -/

/-- A 4096-byte database block (`Dbt` data), as a total byte function. -/
def Block : Type := Nat → Nat

/-- `SlottedPage::get_n`: read the 16-bit integer at `o` (little-endian). -/
def getN (b : Block) (o : Nat) : Nat :=
  b o % 256 + 256 * (b (o + 1) % 256)

/-- `SlottedPage::put_n`: write the 16-bit integer `n` at offset `o`. -/
def putN (b : Block) (o n : Nat) : Block :=
  fun i => if i = o then n % 256 else if i = o + 1 then n / 256 % 256 else b i

/-- `memcpy(address dst, address src, len)` on the block's bytes. -/
def memcpyB (b : Block) (dst src len : Nat) : Block :=
  fun i => if dst ≤ i ∧ i < dst + len then b (src + (i - dst)) else b i

/-- Casting an `int` to `u16` always lands below 2^16. -/
theorem emod16_toNat_lt (x : Int) : (x % 65536).toNat < 65536 := by
  rw [Int.toNat_lt' (by norm_num : (65536:Nat) ≠ 0)]
  exact Int.emod_lt_of_pos x (by norm_num)

theorem getN_lt (b : Block) (o : Nat) : getN b o < 65536 := by
  have h1 : b o % 256 < 256 := Nat.mod_lt _ (by norm_num)
  have h2 : b (o + 1) % 256 < 256 := Nat.mod_lt _ (by norm_num)
  simp only [getN]; omega

theorem getN_putN_self (b : Block) (o n : Nat) :
    getN (putN b o n) o = n % 65536 := by
  simp only [getN, putN]
  have ho : ¬ (o + 1 = o) := by omega
  simp only [if_pos rfl, if_neg ho, if_pos rfl, if_true]
  have h : (65536 : Nat) = 256 * 256 := by norm_num
  rw [h, Nat.mod_mul, Nat.mod_mod_of_dvd n dvd_rfl,
    Nat.mod_mod_of_dvd (n / 256) dvd_rfl]

theorem getN_putN_ne (b : Block) (o o' n : Nat)
    (h : o' + 2 ≤ o ∨ o + 2 ≤ o') : getN (putN b o n) o' = getN b o' := by
  simp only [getN, putN]
  have h1 : ¬ (o' = o) := by omega
  have h2 : ¬ (o' = o + 1) := by omega
  have h3 : ¬ (o' + 1 = o) := by omega
  have h4 : ¬ (o' + 1 = o + 1) := by omega
  simp [h1, h2, h3, h4]

theorem getN_memcpyB_lo (b : Block) (dst src len o : Nat)
    (h : o + 2 ≤ dst) : getN (memcpyB b dst src len) o = getN b o := by
  simp only [getN, memcpyB]
  have h1 : ¬ (dst ≤ o ∧ o < dst + len) := by omega
  have h2 : ¬ (dst ≤ o + 1 ∧ o + 1 < dst + len) := by omega
  simp [h1, h2]

/-- `memcpy(address dst, data, data.length)` from an external buffer. -/
def writeBytes (b : Block) (dst : Nat) (data : List Nat) : Block :=
  fun i => if dst ≤ i ∧ i < dst + data.length then data.getD (i - dst) 0 else b i

theorem writeBytes_nil (b : Block) (dst : Nat) : writeBytes b dst [] = b := by
  funext i
  simp [writeBytes]

theorem getN_writeBytes_lo (b : Block) (dst : Nat) (data : List Nat) (o : Nat)
    (h : o + 2 ≤ dst) : getN (writeBytes b dst data) o = getN b o := by
  simp only [getN, writeBytes]
  have h1 : ¬ (dst ≤ o ∧ o < dst + data.length) := by omega
  have h2 : ¬ (dst ≤ o + 1 ∧ o + 1 < dst + data.length) := by omega
  simp [h1, h2]

/-! ## SlottedPage

`SlottedPage` carries the block plus the two in-memory `u16` fields
`num_records` and `end_free`, exactly as the C++ object does.  Slot
headers live in the block at bytes `[4·id, 4·id+4)`: size then offset. -/

/-- `DbBlock::BLOCK_SZ`. -/
def BLOCK_SZ : Nat := 4096

structure Page where
  block : Block
  num_records : Nat
  end_free : Nat

/-- `SlottedPage::get_header`: read `(size, loc)` of slot `id` from the block. -/
def getHeaderB (b : Block) (id : Nat) : Nat × Nat :=
  (getN b (4 * id), getN b (4 * id + 2))

/-- `SlottedPage::put_header(id, size, loc)` (the `id ≠ 0` form). -/
def putHeaderB (b : Block) (id size loc : Nat) : Block :=
  putN (putN b (4 * id) size) (4 * id + 2) loc

/-- `SlottedPage::put_header()`: store the `num_records`/`end_free` fields
into the block header (slot 0). -/
def putHeader0 (p : Page) : Page :=
  { p with block := putHeaderB p.block 0 p.num_records p.end_free }

/-- `SlottedPage::ids` as implemented in copy A (part_003:118): loop
`record_id = 1 .. num_records` inclusive, keeping slots with `loc ≠ 0`. -/
def idsA (p : Page) : List Nat :=
  (List.range' 1 p.num_records).filter (fun i => (getHeaderB p.block i).2 != 0)

/-- `SlottedPage::ids` as implemented in copy B (part_003:913): loop
`record_id = 1; record_id < num_records` — the last slot is never visited. -/
def idsB (p : Page) : List Nat :=
  (List.range' 1 (p.num_records - 1)).filter
    (fun i => (getHeaderB p.block i).2 != 0)

/-- `SlottedPage::has_room(size)` (identical in copies A and B):
`u16 available = end_free - (num_records + 1) * 4; return size <= available`.
The subtraction is 16-bit and wraps, mirrored with `Int.emod`. -/
def hasRoom (p : Page) (size : Nat) : Bool :=
  let available : Nat :=
    (((p.end_free : Int) - ((p.num_records : Int) + 1) * 4) % 65536).toNat
  size ≤ available

/-- The header-fixup loop inside `SlottedPage::slide`: for each id in the
pre-computed `ids()` list, re-read its header and, when `loc ≤ start`,
rewrite it with `loc + shift` (stored through the 16-bit `put_n`). -/
def fixHeaders (b : Block) (l : List Nat) (start : Nat) (shift : Int) : Block :=
  match l with
  | [] => b
  | id :: rest =>
      let s := getN b (4 * id)
      let loc := getN b (4 * id + 2)
      if loc ≤ start then
        fixHeaders (putHeaderB b id s (((loc + shift) % 65536).toNat))
          rest start shift
      else fixHeaders b rest start shift

/-- The page state after copy A `slide`'s data `memcpy` (its destination
and byte count are the `int` expressions of part_003:177-178, truncated
through the `u16` `address` parameter; a negative byte count — unreachable
from sane states — clamps to zero). -/
def slideAP1 (p : Page) (start end_ : Nat) : Page :=
  let shift : Int := (end_ : Int) - start
  let bytes : Int := (start : Int) - ((p.end_free : Int) + 1)
  let dst : Nat := (((p.end_free : Int) + 1 + shift) % 65536).toNat
  { p with block := memcpyB p.block dst (p.end_free + 1) bytes.toNat }

/-- The body of copy A's `slide` after the `shift = 0` early return:
data `memcpy`, header fixup over `ids()`, `end_free += shift`,
`put_header()`. -/
def slideACore (p : Page) (start end_ : Nat) : Page :=
  let p1 := slideAP1 p start end_
  let b2 := fixHeaders p1.block (idsA p1) start ((end_ : Int) - start)
  let ef' : Nat := (((p.end_free : Int) + ((end_ : Int) - start)) % 65536).toNat
  { block := putHeaderB b2 0 p.num_records ef', num_records := p.num_records,
    end_free := ef' }

def slideA (p : Page) (start end_ : Nat) : Page :=
  if ((end_ : Int) - start) = 0 then p else slideACore p start end_

/-- The body of copy B's `slide` after the `shift = 0` early return:
`SlottedPage::slide` of copy B (part_003:959) computes `u16 shift = end -
start`, which wraps when `end < start`; its data `memcpy` copies `shift`
bytes (instead of the width of the region below `start`), and its fixup
loop uses copy B's off-by-one `ids()`.  Arguments are `u16` (`< 65536`). -/
def slideBCore (p : Page) (start end_ : Nat) : Page :=
  let shift : Nat := (end_ + 65536 - start) % 65536
  let dst : Nat := (p.end_free + 1 + shift) % 65536
  let p1 : Page := { p with block := memcpyB p.block dst (p.end_free + 1) shift }
  let b2 := fixHeaders p1.block (idsB p1) start (shift : Int)
  let ef' : Nat := (p.end_free + shift) % 65536
  { block := putHeaderB b2 0 p.num_records ef', num_records := p.num_records,
    end_free := ef' }

def slideB (p : Page) (start end_ : Nat) : Page :=
  if (end_ + 65536 - start) % 65536 = 0 then p else slideBCore p start end_

/-- `SlottedPage::add`, copy A (part_003:52): room check on
`data.size + 4`; then `id = ++num_records`, `end_free -= size`,
`loc = end_free + 1`, `put_header(); put_header(id, size, loc)`, and the
record bytes are copied to `loc`.  Sizes pass through `u16` casts. -/
def addA (p : Page) (data : List Nat) : Except String (Nat × Page) :=
  if ¬ hasRoom p ((data.length + 4) % 65536) then
    .error "not enough room for new record"
  else
    let id := (p.num_records + 1) % 65536
    let size := data.length % 65536
    let ef := (p.end_free + 65536 - size) % 65536
    let loc := (ef + 1) % 65536
    let p1 : Page := { p with num_records := id, end_free := ef }
    let b1 := (putHeader0 p1).block
    let b2 := putHeaderB b1 id size loc
    let b3 := writeBytes b2 loc (data.take size)
    .ok (id, { block := b3, num_records := id, end_free := ef })

/-- `SlottedPage::add`, copy C (part_003:1351): identical to copy A except
the room check is `has_room(data.size)` — the 4 header bytes are not
accounted for.  (Copy C's own `has_room` is commented out; the declared
`has_room` is the one of copies A/B.) -/
def addC (p : Page) (data : List Nat) : Except String (Nat × Page) :=
  if ¬ hasRoom p (data.length % 65536) then
    .error "not enough room for new record"
  else
    let id := (p.num_records + 1) % 65536
    let size := data.length % 65536
    let ef := (p.end_free + 65536 - size) % 65536
    let loc := (ef + 1) % 65536
    let p1 : Page := { p with num_records := id, end_free := ef }
    let b1 := (putHeader0 p1).block
    let b2 := putHeaderB b1 id size loc
    let b3 := writeBytes b2 loc (data.take size)
    .ok (id, { block := b3, num_records := id, end_free := ef })

/-- `SlottedPage::del`, copy A (part_003:109): zero the slot, then
`slide(loc, loc + size)`. -/
def delA (p : Page) (id : Nat) : Page :=
  let s := (getHeaderB p.block id).1
  let loc := (getHeaderB p.block id).2
  let p1 : Page := { p with block := putHeaderB p.block id 0 0 }
  slideA p1 loc ((loc + s) % 65536)

/-- `SlottedPage::del`, copy B (part_003:904): same statements as copy A but
running on copy B's `slide` (and hence copy B's `ids`). -/
def delB (p : Page) (id : Nat) : Page :=
  let s := (getHeaderB p.block id).1
  let loc := (getHeaderB p.block id).2
  let p1 : Page := { p with block := putHeaderB p.block id 0 0 }
  slideB p1 loc ((loc + s) % 65536)

/-- `SlottedPage::put`, copy A (part_003:79): grow path checks room for
`extra = data_size - header_size`, slides left and copies; shrink path
copies in place then `slide(loc + data_size, loc + header_size)`; both end
by re-reading the slot and writing `(data_size, loc)`. -/
def putA (p : Page) (id : Nat) (data : List Nat) : Except String Page :=
  let hs := (getHeaderB p.block id).1
  let loc := (getHeaderB p.block id).2
  let ds := data.length % 65536
  if ds > hs then
    let extra := (ds + 65536 - hs) % 65536
    if ¬ hasRoom p extra then .error "Not enough room in block"
    else
      let p1 := slideA p loc ((loc + 65536 - extra) % 65536)
      let b2 := writeBytes p1.block ((loc + 65536 - extra) % 65536) (data.take ds)
      let p2 : Page := { p1 with block := b2 }
      let loc' := (getHeaderB p2.block id).2
      .ok { p2 with block := putHeaderB p2.block id ds loc' }
  else
    let p1 : Page := { p with block := writeBytes p.block loc (data.take ds) }
    let p2 := slideA p1 ((loc + ds) % 65536) ((loc + hs) % 65536)
    let loc' := (getHeaderB p2.block id).2
    .ok { p2 with block := putHeaderB p2.block id ds loc' }

/-- `SlottedPage::get`, copy A (part_003:67): `nullptr` on a tombstone,
otherwise the `size` bytes at `loc`.  (The returned `Dbt` aliases the
block, so the record's bytes are the block bytes at `[loc, loc+size)`.) -/
def getRecord (p : Page) (id : Nat) : Option (List Nat) :=
  let s := (getHeaderB p.block id).1
  let loc := (getHeaderB p.block id).2
  if loc = 0 then none
  else some ((List.range' loc s).map (fun i => p.block i % 256))

/-! ### Header access lemmas -/

theorem getHeaderB_putHeaderB_self (b : Block) (id s l : Nat) :
    getHeaderB (putHeaderB b id s l) id = (s % 65536, l % 65536) := by
  simp only [getHeaderB, putHeaderB]
  rw [getN_putN_ne _ _ _ _ (by omega : 4 * id + 2 ≤ 4 * id + 2 ∨ _),
    getN_putN_self, getN_putN_self]

theorem getHeaderB_putHeaderB_ne (b : Block) (id id' s l : Nat)
    (h : id' ≠ id) :
    getHeaderB (putHeaderB b id s l) id' = getHeaderB b id' := by
  have hc : id' < id ∨ id < id' := by omega
  simp only [getHeaderB, putHeaderB]
  rcases hc with hc | hc
  · rw [getN_putN_ne _ _ _ _ (by omega), getN_putN_ne _ _ _ _ (by omega),
      getN_putN_ne _ _ _ _ (by omega), getN_putN_ne _ _ _ _ (by omega)]
  · rw [getN_putN_ne _ _ _ _ (by omega), getN_putN_ne _ _ _ _ (by omega),
      getN_putN_ne _ _ _ _ (by omega), getN_putN_ne _ _ _ _ (by omega)]

theorem getHeaderB_memcpyB (b : Block) (dst src len id : Nat)
    (h : 4 * id + 4 ≤ dst) :
    getHeaderB (memcpyB b dst src len) id = getHeaderB b id := by
  simp only [getHeaderB]
  rw [getN_memcpyB_lo _ _ _ _ _ (by omega), getN_memcpyB_lo _ _ _ _ _ (by omega)]

theorem getHeaderB_writeBytes (b : Block) (dst : Nat) (data : List Nat)
    (id : Nat) (h : 4 * id + 4 ≤ dst) :
    getHeaderB (writeBytes b dst data) id = getHeaderB b id := by
  simp only [getHeaderB]
  rw [getN_writeBytes_lo _ _ _ _ (by omega), getN_writeBytes_lo _ _ _ _ (by omega)]

theorem getHeaderB_fst_lt (b : Block) (id : Nat) :
    (getHeaderB b id).1 < 65536 := getN_lt b _

theorem getHeaderB_snd_lt (b : Block) (id : Nat) :
    (getHeaderB b id).2 < 65536 := getN_lt b _

/-- Slots not named in the fixup list are untouched. -/
theorem fixHeaders_not_mem (l : List Nat) (b : Block) (start : Nat)
    (shift : Int) (id : Nat) (h : id ∉ l) :
    getHeaderB (fixHeaders b l start shift) id = getHeaderB b id := by
  induction l generalizing b with
  | nil => rfl
  | cons id0 rest ih =>
      have hne : id ≠ id0 := fun he => h (he ▸ List.mem_cons_self id0 rest)
      have hrest : id ∉ rest := fun hm => h (List.mem_cons_of_mem _ hm)
      simp only [fixHeaders]
      split
      · rw [ih _ hrest, getHeaderB_putHeaderB_ne _ _ _ _ _ hne]
      · exact ih _ hrest

/-- Effect of the fixup loop on a listed slot: headers with `loc ≤ start`
get `loc + shift` (through the 16-bit store), others are unchanged. -/
theorem fixHeaders_mem (l : List Nat) (b : Block) (start : Nat)
    (shift : Int) (id : Nat) (hnd : l.Nodup) (h : id ∈ l) :
    getN (fixHeaders b l start shift) (4 * id) = getN b (4 * id) ∧
    getN (fixHeaders b l start shift) (4 * id + 2) =
      (if getN b (4 * id + 2) ≤ start then
        (((getN b (4 * id + 2) : Int) + shift) % 65536).toNat
      else getN b (4 * id + 2)) := by
  induction l generalizing b with
  | nil => exact absurd h (List.not_mem_nil id)
  | cons id0 rest ih =>
      rcases List.nodup_cons.mp hnd with ⟨hid0, hndr⟩
      rcases List.mem_cons.mp h with he | hm
      · subst he
        have hunf : fixHeaders b (id :: rest) start shift =
            (if getN b (4 * id + 2) ≤ start then
              fixHeaders (putHeaderB b id (getN b (4 * id))
                (((getN b (4 * id + 2) : Int) + shift) % 65536).toNat)
                rest start shift
            else fixHeaders b rest start shift) := rfl
        by_cases hle : getN b (4 * id + 2) ≤ start
        · rw [hunf, if_pos hle, if_pos hle]
          have hnm := fixHeaders_not_mem rest
            (putHeaderB b id (getN b (4 * id))
              (((getN b (4 * id + 2) : Int) + shift) % 65536).toNat)
            start shift id hid0
          have hself := getHeaderB_putHeaderB_self b id (getN b (4 * id))
            (((getN b (4 * id + 2) : Int) + shift) % 65536).toNat
          have h1 : getN b (4 * id) % 65536 = getN b (4 * id) :=
            Nat.mod_eq_of_lt (getN_lt _ _)
          have h2 : (((getN b (4 * id + 2) : Int) + shift) % 65536).toNat % 65536
              = (((getN b (4 * id + 2) : Int) + shift) % 65536).toNat := by
            exact Nat.mod_eq_of_lt (emod16_toNat_lt _)
          constructor
          · have := congrArg Prod.fst hnm
            simp only [getHeaderB] at this hself
            rw [this]
            have := congrArg Prod.fst hself
            simpa [h1] using this
          · have := congrArg Prod.snd hnm
            simp only [getHeaderB] at this hself
            rw [this]
            have := congrArg Prod.snd hself
            simpa [h2] using this
        · rw [hunf, if_neg hle, if_neg hle]
          have hnm := fixHeaders_not_mem rest b start shift id hid0
          have h1 := congrArg Prod.fst hnm
          have h2 := congrArg Prod.snd hnm
          simp only [getHeaderB] at h1 h2
          exact ⟨h1, h2⟩
      · have hne : id ≠ id0 := fun he => hid0 (he ▸ hm)
        have hunf : fixHeaders b (id0 :: rest) start shift =
            (if getN b (4 * id0 + 2) ≤ start then
              fixHeaders (putHeaderB b id0 (getN b (4 * id0))
                (((getN b (4 * id0 + 2) : Int) + shift) % 65536).toNat)
                rest start shift
            else fixHeaders b rest start shift) := rfl
        by_cases hle : getN b (4 * id0 + 2) ≤ start
        · rw [hunf, if_pos hle]
          have hne' := getHeaderB_putHeaderB_ne b id0 id (getN b (4 * id0))
            (((getN b (4 * id0 + 2) : Int) + shift) % 65536).toNat hne
          have h1 := congrArg Prod.fst hne'
          have h2 := congrArg Prod.snd hne'
          simp only [getHeaderB] at h1 h2
          have hih := ih (putHeaderB b id0 (getN b (4 * id0))
            (((getN b (4 * id0 + 2) : Int) + shift) % 65536).toNat) hndr hm
          rw [h1, h2] at hih
          exact hih
        · rw [hunf, if_neg hle]
          exact ih b hndr hm

/-- `ids()` only depends on the headers of slots `1..num_records`. -/
theorem idsA_congr (p q : Page) (hn : q.num_records = p.num_records)
    (h : ∀ i, 1 ≤ i → i ≤ p.num_records →
      getHeaderB q.block i = getHeaderB p.block i) : idsA q = idsA p := by
  simp only [idsA, hn]
  apply List.filter_congr
  intro i hi
  rcases List.mem_range'_1.mp hi with ⟨h1, h2⟩
  rw [h i h1 (by omega)]

theorem idsA_nodup (p : Page) : (idsA p).Nodup :=
  (List.nodup_range' (s := 1) (n := p.num_records)).filter _

theorem mem_idsA (p : Page) (i : Nat) :
    i ∈ idsA p ↔ 1 ≤ i ∧ i ≤ p.num_records ∧ (getHeaderB p.block i).2 ≠ 0 := by
  simp only [idsA, List.mem_filter, List.mem_range'_1, bne_iff_ne, ne_eq]
  constructor
  · rintro ⟨⟨h1, h2⟩, h3⟩; exact ⟨h1, by omega, h3⟩
  · rintro ⟨h1, h2, h3⟩; exact ⟨⟨h1, by omega⟩, h3⟩

/-- Behaviour of copy A's `slide` in the non-negative-shift regime — the
one exercised by `del` and by a shrinking `put`: `end_free` grows by the
shift and every live slot whose offset is `≤ start` has the shift added
to its offset; all other slots (and all slot sizes) are unchanged. -/
theorem slideA_char (p : Page) (start end_ : Nat)
    (hse : start ≤ end_) (hstart : p.end_free + 1 ≤ start) (hend : end_ ≤ 4096)
    (hhead : 4 * (p.num_records + 1) ≤ p.end_free + 1) :
    (slideA p start end_).num_records = p.num_records ∧
    (slideA p start end_).end_free = p.end_free + (end_ - start) ∧
    ∀ id, 1 ≤ id → id ≤ p.num_records →
      getHeaderB (slideA p start end_).block id =
        (if (getHeaderB p.block id).2 ≠ 0 ∧ (getHeaderB p.block id).2 ≤ start
          then ((getHeaderB p.block id).1,
                (getHeaderB p.block id).2 + (end_ - start))
          else getHeaderB p.block id) := by
  by_cases h0 : ((end_ : Int) - start) = 0
  · have hsz : end_ - start = 0 := by omega
    have hq : slideA p start end_ = p := by
      simp only [slideA, h0, if_pos]
    rw [hq, hsz]
    refine ⟨rfl, by omega, fun id _ _ => ?_⟩
    split <;> simp
  · have hsh : 0 < end_ - start := by omega
    set sh : Nat := end_ - start with hshdef
    have hcast : ((end_ : Int) - start) = (sh : Int) := by omega
    have hef2 : p.end_free + sh ≤ 4095 := by omega
    have hq : slideA p start end_ = slideACore p start end_ := by
      simp only [slideA, h0, if_false]
    have hdst : ((((p.end_free : Int) + 1 + ((end_ : Int) - start)) %
        65536).toNat) = p.end_free + 1 + sh := by
      rw [hcast, Int.emod_eq_of_lt (by omega) (by omega)]
      omega
    have hefeq : (((p.end_free : Int) + ((end_ : Int) - start)) %
        65536).toNat = p.end_free + sh := by
      rw [hcast, Int.emod_eq_of_lt (by omega) (by omega)]
      omega
    -- headers of slots 1..n are untouched by the data memcpy
    have hhdr1 : ∀ i, 1 ≤ i → i ≤ p.num_records →
        getHeaderB (slideAP1 p start end_).block i = getHeaderB p.block i := by
      intro i h1 h2
      show getHeaderB (memcpyB p.block _ _ _) i = getHeaderB p.block i
      exact getHeaderB_memcpyB _ _ _ _ _ (by rw [hdst]; omega)
    have hids : idsA (slideAP1 p start end_) = idsA p :=
      idsA_congr p (slideAP1 p start end_) rfl hhdr1
    have hblock : (slideACore p start end_).block =
        putHeaderB (fixHeaders (slideAP1 p start end_).block
          (idsA (slideAP1 p start end_)) start ((end_ : Int) - start))
          0 p.num_records
          ((((p.end_free : Int) + ((end_ : Int) - start)) % 65536).toNat) := rfl
    rw [hq]
    refine ⟨rfl, ?_, ?_⟩
    · show (((p.end_free : Int) + ((end_ : Int) - start)) % 65536).toNat
        = p.end_free + sh
      exact hefeq
    · intro id h1 h2
      have hne0 : id ≠ 0 := by omega
      rw [hblock, getHeaderB_putHeaderB_ne _ _ _ _ _ hne0]
      by_cases hmem : id ∈ idsA p
      · have hloc0 : (getHeaderB p.block id).2 ≠ 0 := ((mem_idsA p id).mp hmem).2.2
        have hfix := fixHeaders_mem (idsA (slideAP1 p start end_))
          (slideAP1 p start end_).block start ((end_ : Int) - start)
          id (hids ▸ idsA_nodup p) (hids ▸ hmem)
        have hh := hhdr1 id h1 h2
        have hh1 : getN (slideAP1 p start end_).block (4 * id) =
            (getHeaderB p.block id).1 := congrArg Prod.fst hh
        have hh2 : getN (slideAP1 p start end_).block (4 * id + 2) =
            (getHeaderB p.block id).2 := congrArg Prod.snd hh
        rw [hh1, hh2] at hfix
        by_cases hle : (getHeaderB p.block id).2 ≤ start
        · rw [if_pos ⟨hloc0, hle⟩]
          have hlocbound : (getHeaderB p.block id).2 + sh < 65536 := by
            have := getHeaderB_snd_lt p.block id
            omega
          have hv : ((((getHeaderB p.block id).2 : Int) +
              ((end_ : Int) - start)) % 65536).toNat =
              (getHeaderB p.block id).2 + sh := by
            rw [hcast, Int.emod_eq_of_lt (by omega) (by omega)]
            omega
          rw [if_pos hle, hv] at hfix
          exact Prod.ext hfix.1 hfix.2
        · rw [if_neg (by tauto)]
          rw [if_neg hle] at hfix
          exact Prod.ext hfix.1 hfix.2
      · have hloc0 : (getHeaderB p.block id).2 = 0 := by
          by_contra hne
          exact hmem ((mem_idsA p id).mpr ⟨h1, h2, hne⟩)
        rw [if_neg (by tauto)]
        have hfix := fixHeaders_not_mem (idsA (slideAP1 p start end_))
          (slideAP1 p start end_).block start
          ((end_ : Int) - start) id (hids ▸ hmem)
        rw [hfix]
        exact hhdr1 id h1 h2

end Rook

namespace Rook

/-! ### Page well-formedness

`WF` collects the slotted-page invariants of spec §3: `end_free` inside
the block, headers below the free region (`end_free ≥ 4·(num_records+1) −
1`), tombstones stored as `(0,0)`, live records inside `(end_free,
BLOCK_SZ]`, pairwise disjoint, and jointly tiling the region above
`end_free` (which is exactly "the free space is one contiguous region"). -/

/-- Slot size of record `i`, as read from the block. -/
def slotS (p : Page) (i : Nat) : Nat := (getHeaderB p.block i).1

/-- Slot offset of record `i`, as read from the block. -/
def slotL (p : Page) (i : Nat) : Nat := (getHeaderB p.block i).2

theorem mem_idsA' (p : Page) (i : Nat) :
    i ∈ idsA p ↔ 1 ≤ i ∧ i ≤ p.num_records ∧ slotL p i ≠ 0 :=
  mem_idsA p i

def WF (p : Page) : Prop :=
  p.end_free ≤ 4095 ∧
  4 * (p.num_records + 1) ≤ p.end_free + 1 ∧
  (∀ i ∈ List.range' 1 p.num_records, slotL p i = 0 → slotS p i = 0) ∧
  (∀ i ∈ idsA p, p.end_free < slotL p i ∧ slotL p i + slotS p i ≤ 4096) ∧
  (idsA p).Pairwise (fun i j =>
    slotL p i + slotS p i ≤ slotL p j ∨ slotL p j + slotS p j ≤ slotL p i) ∧
  (∀ o < 4096, p.end_free < o → ∃ i ∈ idsA p,
    slotL p i ≤ o ∧ o < slotL p i + slotS p i)

/-- Byte `o` is used by the header area, a slot header, or a live record. -/
def occupied (p : Page) (o : Nat) : Prop :=
  o < 4 * (p.num_records + 1) ∨
  ∃ i ∈ idsA p, slotL p i ≤ o ∧ o < slotL p i + slotS p i

/-- The free space of the page is exactly the contiguous byte range
`[4·(num_records+1), end_free]`. -/
def FreeContiguous (p : Page) : Prop :=
  ∀ o < 4096, (¬ occupied p o ↔ 4 * (p.num_records + 1) ≤ o ∧ o ≤ p.end_free)

instance (p : Page) (o : Nat) : Decidable (occupied p o) := by
  unfold occupied; infer_instance

instance (p : Page) : Decidable (WF p) := by
  unfold WF; infer_instance

instance (p : Page) : Decidable (FreeContiguous p) := by
  unfold FreeContiguous; infer_instance

/-- Well-formedness only looks at the fields and the headers of slots
`1..num_records`. -/
theorem WF_congr (p q : Page) (hn : q.num_records = p.num_records)
    (he : q.end_free = p.end_free)
    (h : ∀ i, 1 ≤ i → i ≤ p.num_records →
      getHeaderB q.block i = getHeaderB p.block i) : WF p → WF q := by
  rintro ⟨h1, h2, h3, h4, h5, h6⟩
  have hids : idsA q = idsA p := idsA_congr p q hn h
  have hS : ∀ i ∈ idsA p, slotS q i = slotS p i := by
    intro i hi
    rcases (mem_idsA p i).mp hi with ⟨ha, hb, _⟩
    exact congrArg Prod.fst (h i ha hb)
  have hL : ∀ i ∈ idsA p, slotL q i = slotL p i := by
    intro i hi
    rcases (mem_idsA p i).mp hi with ⟨ha, hb, _⟩
    exact congrArg Prod.snd (h i ha hb)
  refine ⟨he ▸ h1, by omega, ?_, ?_, ?_, ?_⟩
  · intro i hi
    rcases List.mem_range'_1.mp hi with ⟨ha, hb⟩
    have := h i ha (by omega)
    simp only [slotL, slotS, this]
    exact h3 i (by rw [hn] at hi; exact hi)
  · intro i hi
    rw [hids] at hi
    rw [hS i hi, hL i hi, he]
    exact h4 i hi
  · rw [hids]
    refine List.Pairwise.imp_of_mem ?_ h5
    intro a b ha hb hr
    rw [hS a ha, hL a ha, hS b hb, hL b hb]
    exact hr
  · intro o ho1 ho2
    rw [he] at ho2
    rcases h6 o ho1 ho2 with ⟨i, hi, hc1, hc2⟩
    refine ⟨i, hids ▸ hi, ?_, ?_⟩
    · rw [hL i hi]; exact hc1
    · rw [hL i hi, hS i hi]; exact hc2

/-- Under `WF` the free region is contiguous: a byte below 4096 is unused
iff it lies in `[4·(num_records+1), end_free]`. -/
theorem WF.freeContiguous (p : Page) (h : WF p) : FreeContiguous p := by
  obtain ⟨h1, h2, _h3, h4, _h5, h6⟩ := h
  intro o ho
  constructor
  · intro hno
    rcases Nat.lt_or_ge o (4 * (p.num_records + 1)) with hlt | hge
    · exact absurd (Or.inl hlt) hno
    rcases Nat.lt_or_ge p.end_free o with hef | hef
    · rcases h6 o ho hef with ⟨i, hi, hc1, hc2⟩
      exact absurd (Or.inr ⟨i, hi, hc1, hc2⟩) hno
    · exact ⟨hge, hef⟩
  · rintro ⟨hge, hle⟩ hocc
    rcases hocc with hlt | ⟨i, hi, hc1, hc2⟩
    · omega
    · have := (h4 i hi).1
      omega

end Rook

namespace Rook

/-- `del` (copy A) preserves the page invariants, for any slot
`1 ≤ id ≤ num_records`. -/
theorem delA_WF (p : Page) (id : Nat) (hwf : WF p) (hid1 : 1 ≤ id)
    (hid2 : id ≤ p.num_records) : WF (delA p id) := by
  obtain ⟨hef, hhead, htomb, hcont, hdisj, hcov⟩ := hwf
  have hidrange : id ∈ List.range' 1 p.num_records :=
    List.mem_range'_1.mpr ⟨hid1, by omega⟩
  set s := (getHeaderB p.block id).1 with hsdef
  set l := (getHeaderB p.block id).2 with hldef
  set p1 : Page := { p with block := putHeaderB p.block id 0 0 } with hp1def
  have hq : delA p id = slideA p1 l ((l + s) % 65536) := rfl
  have hp1n : p1.num_records = p.num_records := rfl
  have hp1e : p1.end_free = p.end_free := rfl
  have hp1id : getHeaderB p1.block id = (0, 0) := by
    have := getHeaderB_putHeaderB_self p.block id 0 0
    simpa using this
  have hp1ne : ∀ j, j ≠ id → getHeaderB p1.block j = getHeaderB p.block j :=
    fun j hj => getHeaderB_putHeaderB_ne p.block id j 0 0 hj
  by_cases hlz : l = 0
  · -- deleting a tombstone: `slide(0, 0)` is a no-op
    have hsz : s = 0 := htomb id hidrange hlz
    have hq2 : delA p id = p1 := by
      rw [hq, hlz, hsz]
      simp [slideA]
    rw [hq2]
    refine WF_congr p p1 rfl rfl ?_ ⟨hef, hhead, htomb, hcont, hdisj, hcov⟩
    intro i hi1 hi2
    by_cases hji : i = id
    · subst hji
      rw [hp1id]
      have h1 : (getHeaderB p.block i).1 = 0 := by rw [← hsdef]; exact hsz
      have h2 : (getHeaderB p.block i).2 = 0 := by rw [← hldef]; exact hlz
      exact Prod.ext h1.symm h2.symm
    · exact hp1ne i hji
  · -- live slot
    have hidmem : id ∈ idsA p := (mem_idsA p id).mpr ⟨hid1, hid2, hlz⟩
    have hcid := hcont id hidmem
    have hefl : p.end_free < l := hcid.1
    have hls : l + s ≤ 4096 := hcid.2
    have hmod : (l + s) % 65536 = l + s := Nat.mod_eq_of_lt (by omega)
    rw [hq, hmod]
    by_cases hsz : s = 0
    · -- live empty record: `slide(l, l)` is a no-op; only the slot is zeroed
      have hq2 : slideA p1 l (l + s) = p1 := by
        rw [hsz]
        simp [slideA]
      rw [hq2]
      have hmem1 : ∀ j, j ∈ idsA p1 ↔ (j ≠ id ∧ j ∈ idsA p) := by
        intro j
        rw [mem_idsA, mem_idsA, hp1n]
        constructor
        · rintro ⟨ha, hb, hc⟩
          by_cases hji : j = id
          · subst hji; rw [hp1id] at hc; simp at hc
          · rw [hp1ne j hji] at hc; exact ⟨hji, ha, hb, hc⟩
        · rintro ⟨hji, ha, hb, hc⟩
          rw [← hp1ne j hji] at hc; exact ⟨ha, hb, hc⟩
      have hids1 : idsA p1 = (idsA p).filter (fun j => j != id) := by
        simp only [idsA, hp1n, List.filter_filter]
        apply List.filter_congr
        intro j hj
        by_cases hji : j = id
        · subst hji
          rw [hp1id]
          simp
        · rw [hp1ne j hji]
          simp [hji]
      have hS1 : ∀ j, j ≠ id → slotS p1 j = slotS p j :=
        fun j hj => congrArg Prod.fst (hp1ne j hj)
      have hL1 : ∀ j, j ≠ id → slotL p1 j = slotL p j :=
        fun j hj => congrArg Prod.snd (hp1ne j hj)
      refine ⟨hef, hhead, ?_, ?_, ?_, ?_⟩
      · intro i hi
        rw [hp1n] at hi
        by_cases hji : i = id
        · subst hji
          intro _
          show (getHeaderB p1.block i).1 = 0
          rw [hp1id]
        · rw [show slotL p1 i = slotL p i from hL1 i hji,
            show slotS p1 i = slotS p i from hS1 i hji]
          exact htomb i hi
      · intro i hi
        rcases (hmem1 i).mp hi with ⟨hji, hip⟩
        rw [hS1 i hji, hL1 i hji, hp1e]
        exact hcont i hip
      · rw [hids1]
        refine List.Pairwise.imp_of_mem ?_ (hdisj.filter _)
        intro a b ha hb hr
        have hja : a ≠ id := by simpa using (List.mem_filter.mp ha).2
        have hjb : b ≠ id := by simpa using (List.mem_filter.mp hb).2
        rw [hS1 a hja, hL1 a hja, hS1 b hjb, hL1 b hjb]
        exact hr
      · intro o ho hoe
        rw [hp1e] at hoe
        rcases hcov o ho hoe with ⟨i, hi, hc1, hc2⟩
        have hji : i ≠ id := by
          intro he
          subst he
          have e1 : slotL p i = l := rfl
          have e2 : slotS p i = s := rfl
          rw [e1] at hc1
          rw [e1, e2] at hc2
          omega
        refine ⟨i, (hmem1 i).mpr ⟨hji, hi⟩, ?_, ?_⟩
        · rw [hL1 i hji]; exact hc1
        · rw [hL1 i hji, hS1 i hji]; exact hc2
    · -- the sliding case: shift = s ≥ 1
      have hs1 : 1 ≤ s := by omega
      obtain ⟨hqn, hqe, hqh⟩ := slideA_char p1 l (l + s) (by omega)
        (by rw [hp1e]; omega) (by omega) (by rw [hp1e, hp1n]; omega)
      set q := slideA p1 l (l + s) with hqdef
      rw [hp1n] at hqn hqh
      rw [hp1e] at hqe
      have hsh : l + s - l = s := by omega
      rw [hsh] at hqe hqh
      have hslid : slotL p id = l := rfl
      have hssid : slotS p id = s := rfl
      have hqid : getHeaderB q.block id = (0, 0) := by
        have h := hqh id hid1 hid2
        rw [hp1id] at h
        simpa using h
      have hqS : ∀ j, 1 ≤ j → j ≤ p.num_records → j ≠ id →
          slotS q j = slotS p j := by
        intro j ha hb hj
        have h := hqh j ha hb
        rw [hp1ne j hj] at h
        have h2 := congrArg Prod.fst h
        rw [apply_ite Prod.fst] at h2
        simpa using h2
      have hqL : ∀ j, 1 ≤ j → j ≤ p.num_records → j ≠ id →
          slotL q j = (if slotL p j ≠ 0 ∧ slotL p j ≤ l
            then slotL p j + s else slotL p j) := by
        intro j ha hb hj
        have h := hqh j ha hb
        rw [hp1ne j hj] at h
        have h2 := congrArg Prod.snd h
        rw [apply_ite Prod.snd] at h2
        exact h2
      have hqS0 : slotS q id = 0 := congrArg Prod.fst hqid
      have hqL0 : slotL q id = 0 := congrArg Prod.snd hqid
      -- symmetric access to pairwise disjointness
      have hdisjall : ∀ a ∈ idsA p, ∀ b ∈ idsA p, a ≠ b →
          (slotL p a + slotS p a ≤ slotL p b ∨
           slotL p b + slotS p b ≤ slotL p a) := by
        intro a ha b hb hne
        exact List.Pairwise.forall (fun x y h => h.symm) hdisj ha hb hne
      have fact1 : ∀ j ∈ idsA p, j ≠ id → slotL p j ≤ l →
          slotL p j + slotS p j ≤ l := by
        intro j hj hne hle
        rcases hdisjall j hj id hidmem hne with hd | hd
        · rwa [hslid] at hd
        · rw [hslid, hssid] at hd
          omega
      have fact2 : ∀ j ∈ idsA p, j ≠ id → l < slotL p j →
          l + s ≤ slotL p j := by
        intro j hj hne hlt
        rcases hdisjall j hj id hidmem hne with hd | hd
        · rw [hslid] at hd
          omega
        · rwa [hslid, hssid] at hd
      have hmemq : ∀ j, j ∈ idsA q ↔ (j ≠ id ∧ j ∈ idsA p) := by
        intro j
        rw [mem_idsA', mem_idsA', hqn]
        constructor
        · rintro ⟨ha, hb, hc⟩
          by_cases hji : j = id
          · subst hji; exact absurd hqL0 hc
          · rw [hqL j ha hb hji] at hc
            refine ⟨hji, ha, hb, ?_⟩
            by_cases hcond : slotL p j ≠ 0 ∧ slotL p j ≤ l
            · exact hcond.1
            · rwa [if_neg hcond] at hc
        · rintro ⟨hji, ha, hb, hc⟩
          refine ⟨ha, hb, ?_⟩
          rw [hqL j ha hb hji]
          split
          · omega
          · exact hc
      have hidsq : idsA q = (idsA p).filter (fun j => j != id) := by
        simp only [idsA, hqn, List.filter_filter]
        apply List.filter_congr
        intro j hj
        rcases List.mem_range'_1.mp hj with ⟨ha, hb⟩
        show ((getHeaderB q.block j).2 != 0) =
          ((j != id) && ((getHeaderB p.block j).2 != 0))
        by_cases hji : j = id
        · subst hji
          rw [show (getHeaderB q.block j).2 = 0 from hqL0]
          simp
        · have hLj := hqL j ha (by omega) hji
          rw [show (getHeaderB q.block j).2 = slotL q j from rfl, hLj]
          have hj2 : (j != id) = true := by simp [hji]
          rw [hj2, Bool.true_and]
          by_cases hlive : slotL p j = 0
          · rw [if_neg (by tauto)]
            rfl
          · by_cases hle : slotL p j ≤ l
            · rw [if_pos ⟨hlive, hle⟩]
              have h1 : slotL p j + s ≠ 0 := by omega
              have h2 : (getHeaderB p.block j).2 ≠ 0 := hlive
              have e1 : ((slotL p j + s) != 0) = true := by simpa using h1
              have e2 : (((getHeaderB p.block j).2) != 0) = true := by
                simpa using h2
              rw [e1, e2]
            · rw [if_neg (by tauto)]
              rfl
      refine ⟨?_, ?_, ?_, ?_, ?_, ?_⟩
      · rw [hqe]; omega
      · rw [hqe, hqn]; omega
      · -- tombstones stay (0, 0)
        intro i hi
        rw [hqn] at hi
        rcases List.mem_range'_1.mp hi with ⟨ha, hb⟩
        by_cases hji : i = id
        · subst hji; intro _; exact hqS0
        · rw [hqL i ha (by omega) hji, hqS i ha (by omega) hji]
          split
          · rename_i hcase
            intro hzero
            exact absurd hzero (by omega)
          · intro hzero
            exact htomb i (List.mem_range'_1.mpr ⟨ha, hb⟩) hzero
      · -- live records stay inside `(end_free, 4096]`
        intro i hi
        rcases (hmemq i).mp hi with ⟨hji, hip⟩
        rcases (mem_idsA' p i).mp hip with ⟨ha, hb, hlive⟩
        rw [hqe, hqS i ha hb hji, hqL i ha hb hji]
        have hci := hcont i hip
        by_cases hle : slotL p i ≤ l
        · rw [if_pos ⟨hlive, hle⟩]
          have hf := fact1 i hip hji hle
          exact ⟨by omega, by omega⟩
        · rw [if_neg (by tauto)]
          have hf := fact2 i hip hji (by omega)
          exact ⟨by omega, hci.2⟩
      · -- pairwise disjointness
        rw [hidsq]
        refine List.Pairwise.imp_of_mem ?_ (hdisj.filter _)
        intro a b ha hb hr
        have hpa := List.mem_filter.mp ha
        have hpb := List.mem_filter.mp hb
        have hja : a ≠ id := by simpa using hpa.2
        have hjb : b ≠ id := by simpa using hpb.2
        rcases (mem_idsA' p a).mp hpa.1 with ⟨ha1, ha2, halive⟩
        rcases (mem_idsA' p b).mp hpb.1 with ⟨hb1, hb2, hblive⟩
        rw [hqS a ha1 ha2 hja, hqL a ha1 ha2 hja,
          hqS b hb1 hb2 hjb, hqL b hb1 hb2 hjb]
        by_cases hlea : slotL p a ≤ l <;> by_cases hleb : slotL p b ≤ l
        · rw [if_pos ⟨halive, hlea⟩, if_pos ⟨hblive, hleb⟩]
          rcases hr with hr | hr
          · exact Or.inl (by omega)
          · exact Or.inr (by omega)
        · rw [if_pos ⟨halive, hlea⟩, if_neg (by tauto)]
          have h1 := fact1 a hpa.1 hja hlea
          have h2 := fact2 b hpb.1 hjb (by omega)
          exact Or.inl (by omega)
        · rw [if_neg (by tauto), if_pos ⟨hblive, hleb⟩]
          have h1 := fact1 b hpb.1 hjb hleb
          have h2 := fact2 a hpa.1 hja (by omega)
          exact Or.inr (by omega)
        · rw [if_neg (by tauto), if_neg (by tauto)]
          exact hr
      · -- the records still tile the region above the new `end_free`
        intro o ho hoe
        rw [hqe] at hoe
        by_cases hge : l + s ≤ o
        · rcases hcov o ho (by omega) with ⟨i, hi, hc1, hc2⟩
          have hji : i ≠ id := by
            intro he
            subst he
            rw [hslid] at hc1
            rw [hslid, hssid] at hc2
            omega
          rcases (mem_idsA' p i).mp hi with ⟨ha, hb, hlive⟩
          refine ⟨i, (hmemq i).mpr ⟨hji, hi⟩, ?_⟩
          rw [hqS i ha hb hji, hqL i ha hb hji]
          by_cases hle : slotL p i ≤ l
          · exfalso
            have := fact1 i hi hji hle
            omega
          · rw [if_neg (by tauto)]
            exact ⟨hc1, hc2⟩
        · rcases hcov (o - s) (by omega) (by omega) with ⟨i, hi, hc1, hc2⟩
          have hji : i ≠ id := by
            intro he
            subst he
            rw [hslid] at hc1
            omega
          rcases (mem_idsA' p i).mp hi with ⟨ha, hb, hlive⟩
          refine ⟨i, (hmemq i).mpr ⟨hji, hi⟩, ?_⟩
          rw [hqS i ha hb hji, hqL i ha hb hji]
          have hle : slotL p i ≤ l := by omega
          rw [if_pos ⟨hlive, hle⟩]
          exact ⟨by omega, by omega⟩

end Rook

namespace Rook

/-- A shrinking `put` (copy A) never throws and preserves the page
invariants, for any slot `1 ≤ id ≤ num_records` and replacement data no
larger than the stored record. -/
theorem putA_shrink_WF (p : Page) (id : Nat) (data : List Nat) (hwf : WF p)
    (hid1 : 1 ≤ id) (hid2 : id ≤ p.num_records)
    (hshrink : data.length ≤ slotS p id) :
    ∃ q, putA p id data = .ok q ∧ WF q := by
  obtain ⟨hef, hhead, htomb, hcont, hdisj, hcov⟩ := hwf
  have hidrange : id ∈ List.range' 1 p.num_records :=
    List.mem_range'_1.mpr ⟨hid1, by omega⟩
  set hs := (getHeaderB p.block id).1 with hhsdef
  set l := (getHeaderB p.block id).2 with hldef
  have hslid : slotL p id = l := rfl
  have hssid : slotS p id = hs := rfl
  have hhs16 : hs < 65536 := getHeaderB_fst_lt p.block id
  have hl16 : l < 65536 := getHeaderB_snd_lt p.block id
  have hds : data.length % 65536 = data.length :=
    Nat.mod_eq_of_lt (by rw [hssid] at hshrink; omega)
  have hnogrow : ¬ (data.length % 65536 > hs) := by
    rw [hds]; rw [hssid] at hshrink; omega
  set p1 : Page :=
    { p with block := writeBytes p.block l (data.take (data.length % 65536)) }
    with hp1def
  have hq : putA p id data = .ok
      (let p2 := slideA p1 ((l + data.length % 65536) % 65536)
        ((l + hs) % 65536)
       let loc' := (getHeaderB p2.block id).2
       { p2 with block := putHeaderB p2.block id (data.length % 65536) loc' }) := by
    simp only [putA, hnogrow, if_false, if_neg, hp1def]
  rw [hds] at hq
  have hp1n : p1.num_records = p.num_records := rfl
  have hp1e : p1.end_free = p.end_free := rfl
  by_cases hlz : l = 0
  · -- `put` on a tombstone: the stored size is 0, so the data is empty,
    -- the slide is a no-op and the slot is rewritten with `(0, 0)`.
    have hhs0 : hs = 0 := htomb id hidrange hlz
    have hdata0 : data = [] := by
      rw [hssid, hhs0] at hshrink
      exact List.length_eq_zero.mp (by omega)
    have hlen0 : data.length = 0 := by rw [hdata0]; rfl
    have hp1p : p1 = p := by
      rw [hp1def]
      have htake : data.take (data.length % 65536) = ([] : List Nat) := by
        rw [hdata0]; rfl
      rw [htake, writeBytes_nil]
    rw [hp1p, hlen0, hlz, hhs0] at hq
    have hslide : slideA p ((0 + 0) % 65536) ((0 + 0) % 65536) = p := by
      simp [slideA]
    rw [hslide] at hq
    refine ⟨_, hq, ?_⟩
    refine WF_congr p _ rfl rfl ?_ ⟨hef, hhead, htomb, hcont, hdisj, hcov⟩
    intro i hi1 hi2
    by_cases hji : i = id
    · subst hji
      rw [getHeaderB_putHeaderB_self]
      have h1 : (getHeaderB p.block i).1 = 0 := hhs0
      have h2 : (getHeaderB p.block i).2 = 0 := hlz
      exact Prod.ext (by simp [h1]) (by simp [h2])
    · exact getHeaderB_putHeaderB_ne p.block id i _ _ hji
  · -- live record
    have hidmem : id ∈ idsA p := (mem_idsA p id).mpr ⟨hid1, hid2, hlz⟩
    have hcid := hcont id hidmem
    rw [hslid, hssid] at hcid
    have hefl : p.end_free < l := hcid.1
    have hlhs : l + hs ≤ 4096 := hcid.2
    have hheadl : 4 * (p.num_records + 1) ≤ l := by omega
    have hp1hdr : ∀ j, 1 ≤ j → j ≤ p.num_records →
        getHeaderB p1.block j = getHeaderB p.block j := by
      intro j ha hb
      exact getHeaderB_writeBytes p.block l _ j (by omega)
    have hmod1 : (l + data.length) % 65536 = l + data.length := by
      rw [hssid] at hshrink; omega
    have hmod2 : (l + hs) % 65536 = l + hs := by omega
    rw [hmod1, hmod2] at hq
    by_cases heq : data.length = hs
    · -- same-size put: the slide is a no-op, the slot keeps `(hs, l)`
      have hslide : slideA p1 (l + data.length) (l + hs) = p1 := by
        rw [heq]
        simp [slideA]
      rw [hslide] at hq
      refine ⟨_, hq, ?_⟩
      refine WF_congr p _ rfl rfl ?_ ⟨hef, hhead, htomb, hcont, hdisj, hcov⟩
      intro i hi1 hi2
      by_cases hji : i = id
      · subst hji
        rw [getHeaderB_putHeaderB_self,
          show getHeaderB p1.block i = getHeaderB p.block i from hp1hdr i hi1 hi2]
        refine Prod.ext ?_ ?_
        · show data.length % 65536 = (getHeaderB p.block i).1
          rw [hds, heq]
        · show (getHeaderB p.block i).2 % 65536 = (getHeaderB p.block i).2
          rw [← hldef]
          omega
      · rw [getHeaderB_putHeaderB_ne _ _ _ _ _ hji]
        exact hp1hdr i hi1 hi2
    · -- strict shrink: shift = hs - data.length ≥ 1
      set ds := data.length with hdsdef
      set sh := hs - ds with hshdef
      have hsh1 : 1 ≤ sh := by rw [hssid] at hshrink; omega
      obtain ⟨hqn, hqe, hqh⟩ := slideA_char p1 (l + ds) (l + hs)
        (by omega) (by rw [hp1e]; omega) (by omega) (by rw [hp1e, hp1n]; omega)
      set q0 := slideA p1 (l + ds) (l + hs) with hq0def
      rw [hp1n] at hqn hqh
      rw [hp1e] at hqe
      have hshe : l + hs - (l + ds) = sh := by omega
      rw [hshe] at hqe hqh
      -- headers of q0 in terms of p
      have hq0S : ∀ j, 1 ≤ j → j ≤ p.num_records →
          slotS q0 j = slotS p j := by
        intro j ha hb
        have h := hqh j ha hb
        rw [hp1hdr j ha hb] at h
        have h2 := congrArg Prod.fst h
        rw [apply_ite Prod.fst] at h2
        simpa using h2
      have hq0L : ∀ j, 1 ≤ j → j ≤ p.num_records →
          slotL q0 j = (if slotL p j ≠ 0 ∧ slotL p j ≤ l + ds
            then slotL p j + sh else slotL p j) := by
        intro j ha hb
        have h := hqh j ha hb
        rw [hp1hdr j ha hb] at h
        have h2 := congrArg Prod.snd h
        rw [apply_ite Prod.snd] at h2
        exact h2
      have hq0Lid : slotL q0 id = l + sh := by
        rw [hq0L id hid1 hid2, hslid, if_pos ⟨hlz, by omega⟩]
      refine ⟨_, hq, ?_⟩
      -- the final page r
      set rb : Block := putHeaderB q0.block id ds ((getHeaderB q0.block id).2)
        with hrbdef
      set r : Page := { q0 with block := rb } with hrdef
      show WF r
      have hrn : r.num_records = p.num_records := hqn
      have hre : r.end_free = p.end_free + sh := hqe
      have hrS : ∀ j, 1 ≤ j → j ≤ p.num_records → j ≠ id →
          slotS r j = slotS p j := by
        intro j ha hb hj
        show (getHeaderB (putHeaderB q0.block id _ _) j).1 = _
        rw [getHeaderB_putHeaderB_ne _ _ _ _ _ hj]
        exact hq0S j ha hb
      have hrL : ∀ j, 1 ≤ j → j ≤ p.num_records → j ≠ id →
          slotL r j = (if slotL p j ≠ 0 ∧ slotL p j ≤ l + ds
            then slotL p j + sh else slotL p j) := by
        intro j ha hb hj
        show (getHeaderB (putHeaderB q0.block id _ _) j).2 = _
        rw [getHeaderB_putHeaderB_ne _ _ _ _ _ hj]
        exact hq0L j ha hb
      have hrid : getHeaderB r.block id = (ds, l + sh) := by
        show getHeaderB (putHeaderB q0.block id _ _) id = _
        rw [getHeaderB_putHeaderB_self]
        rw [show (getHeaderB q0.block id).2 = slotL q0 id from rfl, hq0Lid]
        have e1 : ds % 65536 = ds := by omega
        have e2 : (l + sh) % 65536 = l + sh := by omega
        rw [e1, e2]
      have hrSid : slotS r id = ds := congrArg Prod.fst hrid
      have hrLid : slotL r id = l + sh := congrArg Prod.snd hrid
      -- disjointness facts against the old interval of `id`
      have hdisjall : ∀ a ∈ idsA p, ∀ b ∈ idsA p, a ≠ b →
          (slotL p a + slotS p a ≤ slotL p b ∨
           slotL p b + slotS p b ≤ slotL p a) := by
        intro a ha b hb hne
        exact List.Pairwise.forall (fun x y h => h.symm) hdisj ha hb hne
      have fact1 : ∀ j ∈ idsA p, j ≠ id → slotL p j ≤ l + ds →
          slotL p j + slotS p j ≤ l := by
        intro j hj hne hle
        rcases hdisjall j hj id hidmem hne with hd | hd
        · rwa [hslid] at hd
        · rw [hslid, hssid] at hd
          omega
      have fact2 : ∀ j ∈ idsA p, j ≠ id → ¬ (slotL p j ≤ l + ds) →
          l + hs ≤ slotL p j := by
        intro j hj hne hgt
        rcases hdisjall j hj id hidmem hne with hd | hd
        · rw [hslid] at hd
          have := (hcont j hj).1
          omega
        · rwa [hslid, hssid] at hd
      have hmemr : ∀ j, j ∈ idsA r ↔ j ∈ idsA p := by
        intro j
        rw [mem_idsA', mem_idsA', hrn]
        constructor
        · rintro ⟨ha, hb, hc⟩
          refine ⟨ha, hb, ?_⟩
          by_cases hji : j = id
          · subst hji; exact hlz
          · rw [hrL j ha hb hji] at hc
            by_cases hcond : slotL p j ≠ 0 ∧ slotL p j ≤ l + ds
            · exact hcond.1
            · rwa [if_neg hcond] at hc
        · rintro ⟨ha, hb, hc⟩
          refine ⟨ha, hb, ?_⟩
          by_cases hji : j = id
          · subst hji; rw [hrLid]; omega
          · rw [hrL j ha hb hji]
            split
            · omega
            · exact hc
      have hidsr : idsA r = idsA p := by
        simp only [idsA]
        rw [show r.num_records = p.num_records from hrn]
        apply List.filter_congr
        intro j hj
        rcases List.mem_range'_1.mp hj with ⟨ha, hb⟩
        show ((getHeaderB r.block j).2 != 0) = ((getHeaderB p.block j).2 != 0)
        by_cases hji : j = id
        · subst hji
          rw [show (getHeaderB r.block j).2 = l + sh from hrLid]
          have e1 : ((l + sh) != 0) = true := by
            have : l + sh ≠ 0 := by omega
            simpa using this
          have e2 : ((getHeaderB p.block j).2 != 0) = true := by
            simpa using hlz
          rw [e1, e2]
        · rw [show (getHeaderB r.block j).2 = slotL r j from rfl,
            hrL j ha (by omega) hji]
          by_cases hlive : slotL p j = 0
          · rw [if_neg (by tauto)]
            rfl
          · by_cases hle : slotL p j ≤ l + ds
            · rw [if_pos ⟨hlive, hle⟩]
              have e1 : ((slotL p j + sh) != 0) = true := by
                have : slotL p j + sh ≠ 0 := by omega
                simpa using this
              have e2 : ((getHeaderB p.block j).2 != 0) = true := by
                simpa using hlive
              rw [e1, e2]
            · rw [if_neg (by tauto)]
              rfl
      refine ⟨?_, ?_, ?_, ?_, ?_, ?_⟩
      · rw [hre]; omega
      · rw [hre, hrn]; omega
      · -- tombstones
        intro i hi
        rw [hrn] at hi
        rcases List.mem_range'_1.mp hi with ⟨ha, hb⟩
        by_cases hji : i = id
        · subst hji
          rw [hrLid]
          intro hzero
          exact absurd hzero (by omega)
        · rw [hrL i ha (by omega) hji, hrS i ha (by omega) hji]
          split
          · rename_i hcase
            intro hzero
            exact absurd hzero (by omega)
          · intro hzero
            exact htomb i (List.mem_range'_1.mpr ⟨ha, hb⟩) hzero
      · -- containment
        intro i hi
        rw [hre]
        rcases (hmemr i).mp hi with hip
        rcases (mem_idsA' p i).mp hip with ⟨ha, hb, hlive⟩
        by_cases hji : i = id
        · subst hji
          rw [hrLid, hrSid]
          exact ⟨by omega, by omega⟩
        · rw [hrS i ha hb hji, hrL i ha hb hji]
          have hci := hcont i hip
          by_cases hle : slotL p i ≤ l + ds
          · rw [if_pos ⟨hlive, hle⟩]
            have hf := fact1 i hip hji hle
            exact ⟨by omega, by omega⟩
          · rw [if_neg (by tauto)]
            have hf := fact2 i hip hji hle
            exact ⟨by omega, hci.2⟩
      · -- pairwise disjointness
        rw [hidsr]
        refine List.Pairwise.imp_of_mem ?_ hdisj
        intro a b ha hb hr
        rcases (mem_idsA' p a).mp ha with ⟨ha1, ha2, halive⟩
        rcases (mem_idsA' p b).mp hb with ⟨hb1, hb2, hblive⟩
        by_cases hja : a = id
        · have hjb : b ≠ id := by
            intro he
            rw [hja, he] at hr
            rw [hslid, hssid] at hr
            omega
          rw [hja]
          rw [hrLid, hrSid, hrS b hb1 hb2 hjb, hrL b hb1 hb2 hjb]
          by_cases hleb : slotL p b ≤ l + ds
          · have hf := fact1 b hb hjb hleb
            rw [if_pos ⟨hblive, hleb⟩]
            exact Or.inr (by omega)
          · have hf := fact2 b hb hjb hleb
            rw [if_neg (by tauto)]
            exact Or.inl (by omega)
        · by_cases hjb : b = id
          · rw [hjb]
            rw [hrLid, hrSid, hrS a ha1 ha2 hja, hrL a ha1 ha2 hja]
            by_cases hlea : slotL p a ≤ l + ds
            · have hf := fact1 a ha hja hlea
              rw [if_pos ⟨halive, hlea⟩]
              exact Or.inl (by omega)
            · have hf := fact2 a ha hja hlea
              rw [if_neg (by tauto)]
              exact Or.inr (by omega)
          · rw [hrS a ha1 ha2 hja, hrL a ha1 ha2 hja,
              hrS b hb1 hb2 hjb, hrL b hb1 hb2 hjb]
            by_cases hlea : slotL p a ≤ l + ds <;>
              by_cases hleb : slotL p b ≤ l + ds
            · rw [if_pos ⟨halive, hlea⟩, if_pos ⟨hblive, hleb⟩]
              rcases hr with hr | hr
              · exact Or.inl (by omega)
              · exact Or.inr (by omega)
            · rw [if_pos ⟨halive, hlea⟩, if_neg (by tauto)]
              have h1 := fact1 a ha hja hlea
              have h2 := fact2 b hb hjb hleb
              exact Or.inl (by omega)
            · rw [if_neg (by tauto), if_pos ⟨hblive, hleb⟩]
              have h1 := fact1 b hb hjb hleb
              have h2 := fact2 a ha hja hlea
              exact Or.inr (by omega)
            · rw [if_neg (by tauto), if_neg (by tauto)]
              exact hr
      · -- coverage
        intro o ho hoe
        rw [hre] at hoe
        by_cases hge : l + hs ≤ o
        · rcases hcov o ho (by omega) with ⟨i, hi, hc1, hc2⟩
          have hji : i ≠ id := by
            intro he
            subst he
            rw [hslid] at hc1
            rw [hslid, hssid] at hc2
            omega
          rcases (mem_idsA' p i).mp hi with ⟨ha, hb, hlive⟩
          refine ⟨i, (hmemr i).mpr hi, ?_⟩
          rw [hrS i ha hb hji, hrL i ha hb hji]
          by_cases hle : slotL p i ≤ l + ds
          · exfalso
            have := fact1 i hi hji hle
            omega
          · rw [if_neg (by tauto)]
            exact ⟨hc1, hc2⟩
        · by_cases hmid : l + sh ≤ o
          · -- covered by the shrunk record itself
            refine ⟨id, (hmemr id).mpr hidmem, ?_⟩
            rw [hrLid, hrSid]
            exact ⟨by omega, by omega⟩
          · rcases hcov (o - sh) (by omega) (by omega) with ⟨i, hi, hc1, hc2⟩
            have hji : i ≠ id := by
              intro he
              subst he
              rw [hslid] at hc1
              omega
            rcases (mem_idsA' p i).mp hi with ⟨ha, hb, hlive⟩
            refine ⟨i, (hmemr i).mpr hi, ?_⟩
            rw [hrS i ha hb hji, hrL i ha hb hji]
            have hle : slotL p i ≤ l + ds := by omega
            rw [if_pos ⟨hlive, hle⟩]
            exact ⟨by omega, by omega⟩

end Rook

namespace Rook

/-- Build a block from an offset-to-byte association list (absent offsets
are zero). -/
def mkBlock (l : List (Nat × Nat)) : Block :=
  fun i => (l.lookup i).getD 0

/-- `hasRoom` under in-range fields is the plain inequality against
`end_free - 4*(num_records+1)`. -/
theorem hasRoom_char (p : Page) (size : Nat)
    (h1 : 4 * (p.num_records + 1) ≤ p.end_free) (h2 : p.end_free ≤ 4095) :
    hasRoom p size =
      decide (size ≤ p.end_free - 4 * (p.num_records + 1)) := by
  have havail : (((p.end_free : Int) - ((p.num_records : Int) + 1) * 4)
      % 65536).toNat = p.end_free - 4 * (p.num_records + 1) := by
    rw [Int.emod_eq_of_lt (by omega) (by omega)]
    omega
  simp only [hasRoom, havail]

/-- Successful `add` (copy A), written out. -/
theorem addA_ok_char (p : Page) (data : List Nat)
    (h1 : 4 * (p.num_records + 1) ≤ p.end_free) (h2 : p.end_free ≤ 4095)
    (h3 : data.length + 4 ≤ 65535)
    (hr : data.length + 4 ≤ p.end_free - 4 * (p.num_records + 1)) :
    addA p data = .ok (p.num_records + 1,
      { block := writeBytes
          (putHeaderB (putHeaderB p.block 0 (p.num_records + 1)
            (p.end_free - data.length)) (p.num_records + 1) data.length
            (p.end_free - data.length + 1))
          (p.end_free - data.length + 1) data,
        num_records := p.num_records + 1,
        end_free := p.end_free - data.length }) := by
  have hroom : hasRoom p ((data.length + 4) % 65536) = true := by
    rw [hasRoom_char p _ h1 h2]
    simp only [decide_eq_true_eq]
    omega
  have e1 : (p.num_records + 1) % 65536 = p.num_records + 1 := by omega
  have e2 : data.length % 65536 = data.length := by omega
  have e3 : (p.end_free + 65536 - data.length % 65536) % 65536
      = p.end_free - data.length := by omega
  have e3b : (p.end_free + 65536 - data.length) % 65536
      = p.end_free - data.length := by omega
  have e4 : (p.end_free - data.length + 1) % 65536
      = p.end_free - data.length + 1 := by omega
  simp [addA, putHeader0, hroom, e1, e2, e3, e3b, e4, List.take_length]

/-- Successful `add` (copy C), written out — identical body to copy A. -/
theorem addC_ok_char (p : Page) (data : List Nat)
    (h1 : 4 * (p.num_records + 1) ≤ p.end_free) (h2 : p.end_free ≤ 4095)
    (h3 : data.length + 4 ≤ 65535)
    (hr : data.length ≤ p.end_free - 4 * (p.num_records + 1)) :
    addC p data = .ok (p.num_records + 1,
      { block := writeBytes
          (putHeaderB (putHeaderB p.block 0 (p.num_records + 1)
            (p.end_free - data.length)) (p.num_records + 1) data.length
            (p.end_free - data.length + 1))
          (p.end_free - data.length + 1) data,
        num_records := p.num_records + 1,
        end_free := p.end_free - data.length }) := by
  have hroom : hasRoom p (data.length % 65536) = true := by
    rw [hasRoom_char p _ h1 h2]
    simp only [decide_eq_true_eq]
    omega
  have e1 : (p.num_records + 1) % 65536 = p.num_records + 1 := by omega
  have e2 : data.length % 65536 = data.length := by omega
  have e3 : (p.end_free + 65536 - data.length % 65536) % 65536
      = p.end_free - data.length := by omega
  have e3b : (p.end_free + 65536 - data.length) % 65536
      = p.end_free - data.length := by omega
  have e4 : (p.end_free - data.length + 1) % 65536
      = p.end_free - data.length + 1 := by omega
  have hroom2 : hasRoom p data.length = true := by
    have e2' : data.length % 65536 = data.length := e2
    rw [← e2']
    exact hroom
  simp [addC, putHeader0, hroom, hroom2, e1, e2, e3, e3b, e4, List.take_length]

end Rook

namespace Rook

/-- C2 (amended): with in-range fields, copy A's `add` fails exactly when
`size+4` exceeds `end_free − 4·(num_records+1)`, while the part_003:1351
variant (copy C) omits the `+4` and fails exactly when `size` alone exceeds
it; on success both return id `num_records+1`, increment `num_records`,
decrement `end_free` by the record size, store `(size, end_free+1)` in the
new slot header, and (copy A shown) place the record bytes at the new
`end_free + 1`. -/
theorem C2_add_noroom_amended (p : Page) (data : List Nat)
    (h1 : 4 * (p.num_records + 1) ≤ p.end_free) (h2 : p.end_free ≤ 4095)
    (h3 : data.length + 4 ≤ 65535) :
    ((addA p data).isOk = false ↔
      p.end_free - 4 * (p.num_records + 1) < data.length + 4) ∧
    ((addC p data).isOk = false ↔
      p.end_free - 4 * (p.num_records + 1) < data.length) ∧
    (∀ i q, addA p data = .ok (i, q) →
      i = p.num_records + 1 ∧ q.num_records = p.num_records + 1 ∧
      q.end_free = p.end_free - data.length ∧
      getHeaderB q.block (p.num_records + 1) =
        (data.length, p.end_free - data.length + 1) ∧
      ∀ j, j < data.length →
        q.block (p.end_free - data.length + 1 + j) = data.getD j 0) ∧
    (∀ i q, addC p data = .ok (i, q) →
      i = p.num_records + 1 ∧ q.num_records = p.num_records + 1 ∧
      q.end_free = p.end_free - data.length) := by
  refine ⟨?_, ?_, ?_, ?_⟩
  · by_cases hr : data.length + 4 ≤ p.end_free - 4 * (p.num_records + 1)
    · rw [addA_ok_char p data h1 h2 h3 hr]
      simp [Except.isOk, Except.toBool]
      omega
    · have hroom : hasRoom p ((data.length + 4) % 65536) = false := by
        rw [hasRoom_char p _ h1 h2]
        simp only [decide_eq_false_iff_not]
        omega
      have herr : addA p data = .error "not enough room for new record" := by
        simp [addA, hroom]
      rw [herr]
      simp [Except.isOk, Except.toBool]
      omega
  · by_cases hr : data.length ≤ p.end_free - 4 * (p.num_records + 1)
    · rw [addC_ok_char p data h1 h2 h3 hr]
      simp [Except.isOk, Except.toBool]
      omega
    · have hroom : hasRoom p (data.length % 65536) = false := by
        rw [hasRoom_char p _ h1 h2]
        simp only [decide_eq_false_iff_not]
        omega
      have herr : addC p data = .error "not enough room for new record" := by
        simp [addC, hroom]
      rw [herr]
      simp [Except.isOk, Except.toBool]
      omega
  · intro i q h
    by_cases hr : data.length + 4 ≤ p.end_free - 4 * (p.num_records + 1)
    · rw [addA_ok_char p data h1 h2 h3 hr] at h
      have hpair := Except.ok.inj h
      have hi : p.num_records + 1 = i := congrArg Prod.fst hpair
      have hqe := congrArg Prod.snd hpair
      subst hqe
      refine ⟨hi.symm, rfl, rfl, ?_, ?_⟩
      · show getHeaderB (writeBytes _ _ _) (p.num_records + 1) = _
        rw [getHeaderB_writeBytes _ _ _ _ (by omega),
          getHeaderB_putHeaderB_self]
        exact Prod.ext (by show data.length % 65536 = data.length; omega)
          (by show (p.end_free - data.length + 1) % 65536 = _; omega)
      · intro j hj
        show writeBytes _ (p.end_free - data.length + 1) data
          (p.end_free - data.length + 1 + j) = data.getD j 0
        simp only [writeBytes]
        rw [if_pos ⟨by omega, by omega⟩]
        congr 1
        omega
    · have hroom : hasRoom p ((data.length + 4) % 65536) = false := by
        rw [hasRoom_char p _ h1 h2]
        simp only [decide_eq_false_iff_not]
        omega
      have herr : addA p data = .error "not enough room for new record" := by
        simp [addA, hroom]
      rw [herr] at h
      exact absurd h (by simp)
  · intro i q h
    by_cases hr : data.length ≤ p.end_free - 4 * (p.num_records + 1)
    · rw [addC_ok_char p data h1 h2 h3 hr] at h
      have hpair := Except.ok.inj h
      have hi : p.num_records + 1 = i := congrArg Prod.fst hpair
      have hqe := congrArg Prod.snd hpair
      subst hqe
      exact ⟨hi.symm, rfl, rfl⟩
    · have hroom : hasRoom p (data.length % 65536) = false := by
        rw [hasRoom_char p _ h1 h2]
        simp only [decide_eq_false_iff_not]
        omega
      have herr : addC p data = .error "not enough room for new record" := by
        simp [addC, hroom]
      rw [herr] at h
      exact absurd h (by simp)

/-- A freshly constructed page: `num_records = 0`, `end_free = 4095`. -/
def freshPage : Page := { block := mkBlock [], num_records := 0, end_free := 4095 }

/-- A page holding one 4084-byte record (as reached from `freshPage` by
one `add`): `num_records = 1`, `end_free = 11`, slot 1 = `(4084, 12)`. -/
def c2page : Page :=
  { block := mkBlock [(0, 1), (2, 11), (4, 244), (5, 15), (6, 12)],
    num_records := 1, end_free := 11 }

/-- C2 (counterexample): on a page with `end_free − 4·(num_records+1) = 3`,
a 3-byte record has `size+4 = 7 > 3`, so by the claim `add` must throw
`NoRoom` — but the part_003:1351 variant accepts it (copy A does throw). -/
theorem C2_counterexample :
    c2page.end_free - 4 * (c2page.num_records + 1) < [7, 7, 7].length + 4 ∧
    (addC c2page [7, 7, 7]).isOk = true ∧
    (addA c2page [7, 7, 7]).isOk = false := by
  refine ⟨by decide, by decide, by decide⟩

/-- C2 (witness): the amended theorem applied to the concrete `c2page`
and a 3-byte record. -/
theorem C2_witness :
    ((addA c2page [7, 7, 7]).isOk = false ↔
      c2page.end_free - 4 * (c2page.num_records + 1) < [7, 7, 7].length + 4) ∧
    ((addC c2page [7, 7, 7]).isOk = false ↔
      c2page.end_free - 4 * (c2page.num_records + 1) < [7, 7, 7].length) :=
  ⟨(C2_add_noroom_amended c2page [7, 7, 7] (by decide) (by decide)
      (by decide)).1,
    (C2_add_noroom_amended c2page [7, 7, 7] (by decide) (by decide)
      (by decide)).2.1⟩

/-- A page holding two one-byte records (slot 1 at 4095, slot 2 at 4094),
`end_free = 4093` — as reached from `freshPage` by two `add`s. -/
def c4page : Page :=
  { block := mkBlock [(0, 2), (2, 253), (3, 15), (4, 1), (6, 255), (7, 15),
      (8, 1), (10, 254), (11, 15), (4094, 7), (4095, 9)],
    num_records := 2, end_free := 4093 }

/-- C4 (amended): in copy A, after any `del(id)` and after any `put(id,
data)` with `|data| ≤` the stored size, the free space is one contiguous
region and `end_free ≥ 4·(num_records+1) − 1`.  (Copy B's `slide` fixes up
only ids `1..num_records−1`, so this fails there — see the
counterexample.) -/
theorem C4_compaction_amended (p : Page) (id : Nat) (data : List Nat)
    (hwf : WF p) (hid1 : 1 ≤ id) (hid2 : id ≤ p.num_records) :
    (FreeContiguous (delA p id) ∧
      4 * ((delA p id).num_records + 1) ≤ (delA p id).end_free + 1) ∧
    (data.length ≤ slotS p id →
      ∃ q, putA p id data = .ok q ∧ FreeContiguous q ∧
        4 * (q.num_records + 1) ≤ q.end_free + 1) := by
  constructor
  · have hdel := delA_WF p id hwf hid1 hid2
    exact ⟨WF.freeContiguous _ hdel, hdel.2.1⟩
  · intro hshrink
    obtain ⟨q, hq, hwfq⟩ := putA_shrink_WF p id data hwf hid1 hid2 hshrink
    exact ⟨q, hq, WF.freeContiguous _ hwfq, hwfq.2.1⟩

theorem c4page_WF : WF c4page := by
  refine ⟨by decide, by decide, by decide, by decide, by decide, ?_⟩
  intro o ho hoe
  have he : c4page.end_free = 4093 := rfl
  rw [he] at hoe
  have ho2 : o = 4094 ∨ o = 4095 := by omega
  rcases ho2 with h | h
  · subst h; exact ⟨2, by decide, by decide, by decide⟩
  · subst h; exact ⟨1, by decide, by decide, by decide⟩

/-- C4 (counterexample): deleting record 1 of a well-formed two-record page
with copy B's `del` leaves record 2's offset at `4094 ≤ end_free`: byte
4094 is both covered by a live record and inside the claimed free range, so
the free space is not one contiguous region. -/
theorem C4_counterexample : WF c4page ∧ ¬ FreeContiguous (delB c4page 1) := by
  refine ⟨c4page_WF, ?_⟩
  intro h
  have h2 := h 4094 (by omega)
  have hocc : occupied (delB c4page 1) 4094 := by decide
  have hrange : 4 * ((delB c4page 1).num_records + 1) ≤ 4094 ∧
      4094 ≤ (delB c4page 1).end_free := by decide
  exact (h2.mpr hrange) hocc

/-- C4 (witness): the amended theorem applied to the concrete two-record
page, deleting record 1 and shrinking record 1 to one byte. -/
theorem C4_witness :
    FreeContiguous (delA c4page 1) ∧
    (∃ q, putA c4page 1 [5] = Except.ok q ∧ FreeContiguous q ∧
      4 * (q.num_records + 1) ≤ q.end_free + 1) := by
  have h := C4_compaction_amended c4page 1 [5] c4page_WF (by decide)
    (by decide)
  exact ⟨h.1.1, h.2 (by decide)⟩

/-- A page holding one one-byte record in slot 1 (at 4095),
`end_free = 4094`. -/
def c5page : Page :=
  { block := mkBlock [(0, 1), (2, 254), (3, 15), (4, 1), (6, 255), (7, 15),
      (4095, 7)],
    num_records := 1, end_free := 4094 }

/-- C5: copy A's `ids()` returns exactly the ids `1 ≤ i ≤ num_records`
(including `num_records` itself) with non-zero offset, in ascending order;
copy B's variant iterates `record_id < num_records` and so omits the last
slot: on a one-record page it returns `[]` where copy A returns `[1]`. -/
theorem C5_ids :
    (∀ (p : Page) (i : Nat), i ∈ idsA p ↔
      (1 ≤ i ∧ i ≤ p.num_records ∧ slotL p i ≠ 0)) ∧
    (∀ p : Page, (idsA p).Sorted (· < ·)) ∧
    idsA c5page = [1] ∧ idsB c5page = [] := by
  refine ⟨mem_idsA', ?_, by decide, by decide⟩
  intro p
  exact (List.pairwise_lt_range' 1 p.num_records).filter _

/-! ## HeapTable: rows, marshal, unmarshal (part_003:548-614)

`Value` is the tagged value of the data model (spec §3); the C++ `Value`
carries both an `n` and an `s` field, of which marshal reads the one
selected by the column's declared type — `valN`/`valS` model those field
reads (the unused field of a C++ `Value` is default-initialized). -/

inductive DataType where
  | INT
  | TEXT
  | BOOLEAN
deriving DecidableEq, Repr

inductive Value where
  | VInt (n : Int)
  | VText (s : List Nat)
deriving DecidableEq, Repr

def valN : Value → Int
  | .VInt n => n
  | .VText _ => 0

def valS : Value → List Nat
  | .VInt _ => []
  | .VText s => s

/-- The four little-endian bytes of an `int32_t` (two's complement). -/
def int32Bytes (n : Int) : List Nat :=
  let u := (n.emod 4294967296).toNat
  [u % 256, u / 256 % 256, u / 65536 % 256, u / 16777216 % 256]

/-- `HeapTable::marshal` (part_003:548): per declared column, `INT` as 4
little-endian bytes of `value.n`, `TEXT` as a `u16` length prefix followed
by the raw bytes of `value.s`; any other declared type throws. -/
def marshal : List (String × DataType) → (String → Value) →
    Except String (List Nat)
  | [], _ => .ok []
  | (name, .INT) :: rest, row => do
      let tail ← marshal rest row
      .ok (int32Bytes (valN (row name)) ++ tail)
  | (name, .TEXT) :: rest, row => do
      let tail ← marshal rest row
      let s := valS (row name)
      .ok ([s.length % 256, s.length / 256 % 256] ++ s ++ tail)
  | (_, .BOOLEAN) :: _, _ => .error "Only know how to marshal INT and TEXT"

/-- `value.s = string(bytes + offset)` — a C-string read: bytes up to the
first NUL.  (Reading past the end of the allocation is undefined in the
source; the model stops at the end of the buffer.) -/
def cString (bytes : List Nat) : List Nat := bytes.takeWhile (· != 0)

/-- `value.n = *(int32_t*)(bytes + offset)` (bytes past the buffer read
as 0). -/
def readInt32 (bytes : List Nat) : Int :=
  let u := bytes.getD 0 0 % 256 + 256 * (bytes.getD 1 0 % 256) +
    65536 * (bytes.getD 2 0 % 256) + 16777216 * (bytes.getD 3 0 % 256)
  if u < 2147483648 then (u : Int) else (u : Int) - 4294967296

/-- `HeapTable::unmarshal` (part_003:584): consumes columns in declared
order; for `TEXT` it reads the `u16` size but then takes the value from a
NUL-terminated scan (`string(bytes + offset)`), advancing by `size`. -/
def unmarshal : List (String × DataType) → List Nat →
    Except String (List (String × Value))
  | [], _ => .ok []
  | (name, .INT) :: rest, bytes => do
      let v := readInt32 bytes
      let tail ← unmarshal rest (bytes.drop 4)
      .ok ((name, Value.VInt v) :: tail)
  | (name, .TEXT) :: rest, bytes => do
      let size := bytes.getD 0 0 % 256 + 256 * (bytes.getD 1 0 % 256)
      let s := cString (bytes.drop 2)
      let tail ← unmarshal rest (bytes.drop (2 + size))
      .ok ((name, Value.VText s) :: tail)
  | (_, .BOOLEAN) :: _, _ => .error "Only know how to marshal INT and TEXT"

/-- Two-TEXT-column relation, row `a = "one"`, `b = "two"` (bytes
111 110 101 / 116 119 111), which `validate` accepts. -/
def c1schema : List (String × DataType) := [("a", .TEXT), ("b", .TEXT)]

def c1row : String → Value :=
  fun c => if c = "a" then .VText [111, 110, 101] else .VText [116, 119, 111]

/-- C1: the heap round-trip fails.  Marshalling `{a: "one", b: "two"}`
yields `[3,0,111,110,101,3,0,116,119,111]`; unmarshal's C-string scan for
column `a` runs past the 3 declared bytes into the next length prefix and
returns `"one\x03"` ≠ `"one"`.  (The scan stops only at a NUL byte, so the
round-trip also truncates any TEXT value containing NUL.) -/
theorem C1_heap_roundtrip_bug :
    (marshal c1schema c1row).bind (unmarshal c1schema) =
      .ok [("a", Value.VText [111, 110, 101, 3]),
           ("b", Value.VText [116, 119, 111])] ∧
    Value.VText [111, 110, 101, 3] ≠ c1row "a" :=
  ⟨rfl, by decide⟩

/-! ## HeapTable::select(where) (part_003:451-465) -/

instance : Inhabited Page := ⟨⟨fun _ => 0, 0, 0⟩⟩

/-- A heap file as its ordered blocks (block ids are 1-based). -/
def blockIds (f : List Page) : List Nat := List.range' 1 f.length

/-- `HeapTable::select(const ValueDict *where)` (part_003:451): iterates
every block id and every live record id, pushing every handle — the
`where` argument is never consulted. -/
def selectWhere (f : List Page) (_w : List (String × Value)) :
    List (Nat × Nat) :=
  (blockIds f).flatMap
    (fun bid => (idsA (f.getD (bid - 1) default)).map (fun rid => (bid, rid)))

/-- `HeapTable::project(handle)`: `SlottedPage::get` hands `unmarshal` a
pointer into the block at the record's offset, so the bytes it can scan
are the block's bytes from `loc` to the end of the block. -/
def projectH (f : List Page) (cols : List (String × DataType))
    (h : Nat × Nat) : Except String (List (String × Value)) :=
  let p := f.getD (h.1 - 1) default
  let loc := (getHeaderB p.block h.2).2
  unmarshal cols ((List.range' loc (4096 - loc)).map (fun i => p.block i % 256))

/-- The predicate `select(where)` is documented to apply (spec §4.6):
every `column = literal` pair of the conjunction holds of the row. -/
def satisfies (row : List (String × Value)) (w : List (String × Value)) :
    Prop := ∀ kv ∈ w, row.lookup kv.1 = some kv.2

instance (row w : List (String × Value)) : Decidable (satisfies row w) := by
  unfold satisfies; infer_instance

/-- One-block heap file holding the single-`INT`-column row `{a: 1}`
(record `[1,0,0,0]` at offset 4092, slot 1, `end_free = 4091`). -/
def c7page : Page :=
  { block := mkBlock [(0, 1), (2, 251), (3, 15), (4, 4), (6, 252), (7, 15),
      (4092, 1)],
    num_records := 1, end_free := 4091 }

def c7file : List Page := [c7page]

def c7schema : List (String × DataType) := [("a", .INT)]

def c7where : List (String × Value) := [("a", Value.VInt 2)]

/-- C7: `select(where)` returns the handle of a row that fails the
predicate: on a table holding only `{a: 1}`, `select({a: 2})` returns the
row's handle even though `{a: 1}` does not satisfy `a = 2`. -/
theorem C7_select_ignores_where :
    selectWhere c7file c7where = [(1, 1)] ∧
    projectH c7file c7schema (1, 1) = .ok [("a", Value.VInt 1)] ∧
    ¬ satisfies [("a", Value.VInt 1)] c7where :=
  ⟨by decide, rfl, by decide⟩

/-! ## BTreeIndex lookup (btree.cpp:72-92)

`BTreeLeaf::find_eq` and `BTreeInterior::find` are declared in btree.h but
their implementation file is not part of this snapshot; they are modelled
from spec §4.5 ("at the leaf, find exact equality; return the single
matching handle, or empty on miss"; "find the largest key ≤ target and
follow that child, or the first pointer if the target is below all keys").
`_lookup` itself follows btree.cpp:76-92: at a leaf, `find_eq` inside a
try/catch — one handle on a hit, empty list on a miss; at an interior
node, recurse into the chosen child with `height - 1`.  Keys are the
encoded key tuples, modelled as integers with their order. -/

inductive BNode where
  | leaf (entries : List (Int × Nat × Nat))
  | interior (first : BNode) (entries : List (Int × BNode))

/-- Modelled from the spec: exact-equality search in a leaf. -/
def findEq : List (Int × Nat × Nat) → Int → Option (Nat × Nat)
  | [], _ => none
  | (k, hd) :: rest, key => if k = key then some hd else findEq rest key

/-- Modelled from the spec: follow the largest key `≤ key` (or the first
pointer when `key` is below every key). -/
def interiorFind : BNode → List (Int × BNode) → Int → BNode
  | first, [], _ => first
  | first, (k, c) :: rest, key =>
      if key < k then first else interiorFind c rest key

/-- `BTreeIndex::_lookup` (btree.cpp:76), with the `height` argument of the
source as explicit fuel (the node's dynamic type drives the dispatch). -/
def lookupRec : Nat → BNode → Int → List (Nat × Nat)
  | _, .leaf entries, key =>
      match findEq entries key with
      | some hd => [hd]
      | none => []
  | 0, .interior _ _, _ => []
  | h + 1, .interior first entries, key =>
      lookupRec h (interiorFind first entries key) key

/-- `BTreeIndex::lookup` = `_lookup(root, stat->height, tkey(key))`. -/
def btreeLookup (root : BNode) (height : Nat) (key : Int) :
    List (Nat × Nat) := lookupRec height root key

/-- Strictly ascending keys (unique index). -/
def sortedKeys : List (Int × Nat × Nat) → Bool
  | [] => true
  | [_] => true
  | (k1, h1) :: (k2, h2) :: rest =>
      decide (k1 < k2) && sortedKeys ((k2, h2) :: rest)

def boundsOk (es : List (Int × Nat × Nat)) (lo hi : Int) : Bool :=
  es.all (fun e => decide (lo ≤ e.1) && decide (e.1 < hi))

/-- Search-tree shape for an interior node's children chain: the first
child covers `[lo, k₁)`, each keyed child `[kᵢ, kᵢ₊₁)`, the last `[kₙ, hi)`. -/
def wfChain (wf : BNode → Int → Int → Bool) :
    BNode → List (Int × BNode) → Int → Int → Bool
  | f, [], lo, hi => wf f lo hi
  | f, (k, c) :: rest, lo, hi =>
      decide (lo ≤ k) && decide (k < hi) && wf f lo k && wfChain wf c rest k hi

/-- Well-formed B+Tree of height at most `h` whose keys lie in `[lo, hi)`:
leaves hold strictly sorted in-range keys, interior nodes are proper
search-tree chains one level down. -/
def wfNode : Nat → BNode → Int → Int → Bool
  | 0, _, _, _ => false
  | _ + 1, .leaf es, lo, hi => sortedKeys es && boundsOk es lo hi
  | h + 1, .interior f es, lo, hi => wfChain (wfNode h) f es lo hi

/-- All `(key, handle)` pairs stored in the leaves (to fuel `h`). -/
def entriesOf : Nat → BNode → List (Int × Nat × Nat)
  | _, .leaf es => es
  | 0, .interior _ _ => []
  | h + 1, .interior f es => entriesOf h f ++ entriesOfList h es
where entriesOfList (h : Nat) : List (Int × BNode) → List (Int × Nat × Nat)
  | [] => []
  | (_, c) :: rest => entriesOf h c ++ entriesOfList h rest

theorem findEq_mem (es : List (Int × Nat × Nat)) (key : Int) (hd : Nat × Nat)
    (h : findEq es key = some hd) : (key, hd) ∈ es := by
  induction es with
  | nil => simp [findEq] at h
  | cons e rest ih =>
      obtain ⟨k, hd0⟩ := e
      simp only [findEq] at h
      by_cases hk : k = key
      · rw [if_pos hk] at h
        subst hk
        cases h
        exact List.mem_cons_self _ _
      · rw [if_neg hk] at h
        exact List.mem_cons_of_mem _ (ih h)

theorem findEq_none (es : List (Int × Nat × Nat)) (key : Int)
    (h : findEq es key = none) : ∀ hd, (key, hd) ∉ es := by
  induction es with
  | nil => simp
  | cons e rest ih =>
      obtain ⟨k, hd0⟩ := e
      simp only [findEq] at h
      by_cases hk : k = key
      · rw [if_pos hk] at h
        cases h
      · rw [if_neg hk] at h
        intro hd hmem
        rcases List.mem_cons.mp hmem with he | he
        · exact hk (congrArg Prod.fst he).symm
        · exact ih h hd he

theorem sorted_rest (e : Int × Nat × Nat) (rest : List (Int × Nat × Nat))
    (h : sortedKeys (e :: rest) = true) : sortedKeys rest = true := by
  obtain ⟨k, hd⟩ := e
  cases rest with
  | nil => rfl
  | cons e2 rest2 =>
      obtain ⟨k2, hd2⟩ := e2
      simp only [sortedKeys, Bool.and_eq_true] at h
      exact h.2

theorem sorted_head_lt (k0 : Int) (hd0 : Nat × Nat)
    (rest : List (Int × Nat × Nat))
    (h : sortedKeys ((k0, hd0) :: rest) = true) :
    ∀ e ∈ rest, k0 < e.1 := by
  induction rest generalizing k0 hd0 with
  | nil => simp
  | cons e2 rest2 ih =>
      obtain ⟨k2, hd2⟩ := e2
      simp only [sortedKeys, Bool.and_eq_true, decide_eq_true_eq] at h
      intro e he
      rcases List.mem_cons.mp he with he | he
      · rw [he]
        exact h.1
      · exact lt_trans h.1 (ih k2 hd2 h.2 e he)

theorem mem_findEq (es : List (Int × Nat × Nat)) (key : Int) (hd : Nat × Nat)
    (hs : sortedKeys es = true) (h : (key, hd) ∈ es) :
    findEq es key = some hd := by
  induction es with
  | nil => simp at h
  | cons e rest ih =>
      obtain ⟨k, hd0⟩ := e
      simp only [findEq]
      rcases List.mem_cons.mp h with he | he
      · obtain ⟨hk, hhd⟩ := Prod.mk.injEq .. ▸ he
        rw [if_pos hk.symm]
        cases he
        rfl
      · by_cases hk : k = key
        · exfalso
          have := sorted_head_lt k hd0 rest hs (key, hd) he
          simp at this
          omega
        · rw [if_neg hk]
          exact ih (sorted_rest _ _ hs) he

/-- Keys stored under a well-formed node lie within its bounds. -/
theorem entries_bounded : ∀ (h : Nat) (t : BNode) (lo hi : Int),
    wfNode h t lo hi = true →
    ∀ e ∈ entriesOf h t, lo ≤ e.1 ∧ e.1 < hi := by
  intro h
  induction h with
  | zero =>
      intro t lo hi hwf
      simp [wfNode] at hwf
  | succ h ih =>
      intro t lo hi hwf e he
      cases t with
      | leaf es =>
          simp only [wfNode, Bool.and_eq_true] at hwf
          simp only [entriesOf] at he
          have hb := hwf.2
          simp only [boundsOk, List.all_eq_true, Bool.and_eq_true,
            decide_eq_true_eq] at hb
          exact hb e he
      | interior f es =>
          simp only [wfNode] at hwf
          simp only [entriesOf] at he
          induction es generalizing f lo with
          | nil =>
              simp only [wfChain] at hwf
              simp only [entriesOf.entriesOfList, List.append_nil] at he
              exact ih f lo hi hwf e he
          | cons ec rest ihe =>
              obtain ⟨k, c⟩ := ec
              simp only [wfChain, Bool.and_eq_true, decide_eq_true_eq] at hwf
              obtain ⟨⟨⟨hlok, hkhi⟩, hwff⟩, hwfc⟩ := hwf
              simp only [entriesOf.entriesOfList, List.mem_append] at he
              rcases he with he | he
              · have := ih f lo k hwff e he
                constructor
                · exact this.1
                · exact lt_trans this.2 hkhi
              · have hres := ihe k c hwfc (List.mem_append.mpr he)
                exact ⟨le_trans hlok hres.1, hres.2⟩

/-- Keys stored under an interior node's chain lie within its bounds. -/
theorem chain_entries_bounded (h : Nat) :
    ∀ (es : List (Int × BNode)) (f : BNode) (lo hi : Int),
    wfChain (wfNode h) f es lo hi = true →
    ∀ e ∈ entriesOf h f ++ entriesOf.entriesOfList h es,
      lo ≤ e.1 ∧ e.1 < hi := by
  intro es
  induction es with
  | nil =>
      intro f lo hi hwf e he
      simp only [entriesOf.entriesOfList, List.append_nil] at he
      exact entries_bounded h f lo hi hwf e he
  | cons ec rest ihe =>
      obtain ⟨k, c⟩ := ec
      intro f lo hi hwf e he
      simp only [wfChain, Bool.and_eq_true, decide_eq_true_eq] at hwf
      obtain ⟨⟨⟨hlok, hkhi⟩, hwff⟩, hwfc⟩ := hwf
      simp only [entriesOf.entriesOfList, List.mem_append] at he
      rcases he with he | he
      · have hb := entries_bounded h f lo k hwff e he
        exact ⟨hb.1, lt_trans hb.2 hkhi⟩
      · have hres := ihe c k hi hwfc e (List.mem_append.mpr he)
        exact ⟨le_trans hlok hres.1, hres.2⟩


/-- Correctness of `_lookup` on well-formed trees: a present key returns
exactly its one handle, an absent key returns the empty list, and the
result never holds more than one handle. -/
theorem lookupRec_correct : ∀ (h : Nat) (t : BNode) (lo hi key : Int),
    wfNode h t lo hi = true →
    ((∀ hd, (key, hd) ∈ entriesOf h t → lookupRec h t key = [hd]) ∧
     ((∀ hd, (key, hd) ∉ entriesOf h t) → lookupRec h t key = []) ∧
     (lookupRec h t key).length ≤ 1) := by
  intro h
  induction h with
  | zero =>
      intro t lo hi key hwf
      simp [wfNode] at hwf
  | succ h ih =>
      intro t lo hi key hwf
      cases t with
      | leaf es =>
          simp only [wfNode, Bool.and_eq_true] at hwf
          refine ⟨?_, ?_, ?_⟩
          · intro hd hmem
            simp only [entriesOf] at hmem
            show (match findEq es key with
              | some hd => [hd] | none => []) = [hd]
            rw [mem_findEq es key hd hwf.1 hmem]
          · intro habs
            simp only [entriesOf] at habs
            show (match findEq es key with
              | some hd => [hd] | none => []) = []
            cases hfe : findEq es key with
            | some hd => exact absurd (findEq_mem es key hd hfe) (habs hd)
            | none => rfl
          · show (match findEq es key with
              | some hd => [hd] | none => []).length ≤ 1
            cases hfe : findEq es key <;> simp
      | interior f es =>
          simp only [wfNode] at hwf
          show (∀ hd, (key, hd) ∈ entriesOf h f ++
              entriesOf.entriesOfList h es →
              lookupRec h (interiorFind f es key) key = [hd]) ∧
            ((∀ hd, (key, hd) ∉ entriesOf h f ++
              entriesOf.entriesOfList h es) →
              lookupRec h (interiorFind f es key) key = []) ∧
            (lookupRec h (interiorFind f es key) key).length ≤ 1
          induction es generalizing f lo with
          | nil =>
              simp only [wfChain] at hwf
              simp only [entriesOf.entriesOfList, List.append_nil]
              exact ih f lo hi key hwf
          | cons ec rest ihe =>
              obtain ⟨k, c⟩ := ec
              simp only [wfChain, Bool.and_eq_true, decide_eq_true_eq] at hwf
              obtain ⟨⟨⟨hlok, hkhi⟩, hwff⟩, hwfc⟩ := hwf
              by_cases hklt : key < k
              · have hfind : interiorFind f ((k, c) :: rest) key = f := by
                  simp [interiorFind, hklt]
                rw [hfind]
                have hnode := ih f lo k key hwff
                refine ⟨?_, ?_, hnode.2.2⟩
                · intro hd hmem
                  rcases List.mem_append.mp hmem with hm | hm
                  · exact hnode.1 hd hm
                  · exfalso
                    have := chain_entries_bounded h rest c k hi hwfc
                      (key, hd) (show (key, hd) ∈ entriesOf h c ++
                        entriesOf.entriesOfList h rest from hm)
                    simp at this
                    omega
                · intro habs
                  refine hnode.2.1 ?_
                  intro hd hmem
                  exact habs hd (List.mem_append.mpr (Or.inl hmem))
              · have hfind : interiorFind f ((k, c) :: rest) key =
                    interiorFind c rest key := by
                  simp [interiorFind, hklt]
                rw [hfind]
                have hrec := ihe k c hwfc
                refine ⟨?_, ?_, hrec.2.2⟩
                · intro hd hmem
                  rcases List.mem_append.mp hmem with hm | hm
                  · exfalso
                    have := entries_bounded h f lo k hwff (key, hd) hm
                    simp at this
                    omega
                  · exact hrec.1 hd (show (key, hd) ∈ entriesOf h c ++
                      entriesOf.entriesOfList h rest from hm)
                · intro habs
                  refine hrec.2.1 ?_
                  intro hd hmem
                  refine habs hd (List.mem_append.mpr (Or.inr ?_))
                  exact (show (key, hd) ∈ entriesOf.entriesOfList h
                    ((k, c) :: rest) from hmem)

/-- C3: on a well-formed unique B+Tree, `lookup` of a stored key returns
exactly the one handle stored under it, `lookup` of an absent key returns
the empty list, and no lookup ever returns more than one handle. -/
theorem C3_btree_lookup_unique (t : BNode) (h : Nat) (lo hi key : Int)
    (hwf : wfNode h t lo hi = true) :
    (∀ hd, (key, hd) ∈ entriesOf h t → btreeLookup t h key = [hd]) ∧
    (key ∉ (entriesOf h t).map Prod.fst → btreeLookup t h key = []) ∧
    (btreeLookup t h key).length ≤ 1 := by
  have hc := lookupRec_correct h t lo hi key hwf
  refine ⟨hc.1, ?_, hc.2.2⟩
  intro habs
  refine hc.2.1 ?_
  intro hd hmem
  exact habs (List.mem_map.mpr ⟨(key, hd), hmem, rfl⟩)

/-- A height-2 tree: root with first child `leaf [(1,·),(2,·)]` and one
keyed child `5 ↦ leaf [(5,·),(7,·)]`. -/
def c3tree : BNode :=
  .interior (.leaf [(1, 1, 1), (2, 1, 2)]) [(5, .leaf [(5, 2, 1), (7, 2, 2)])]

/-- C3 (witness): the lookup theorem at the concrete height-2 tree, for a
present key (5) and an absent one (3). -/
theorem C3_witness :
    btreeLookup c3tree 2 5 = [(2, 1)] ∧ btreeLookup c3tree 2 3 = [] :=
  ⟨(C3_btree_lookup_unique c3tree 2 0 100 5 (by decide)).1 (2, 1) (by decide),
   (C3_btree_lookup_unique c3tree 2 0 100 3 (by decide)).2.1 (by decide)⟩

/-! ## SQLExec::get_where_conjunction (part_003:1956-1990)

The hsql parse tree fragment the function consumes: an `Expr` has a type
tag, an operator kind with its character, two children, a name and an
integer payload.  `exprName` models the `expr->name` field read (a string
literal also carries its text in `name`; other nodes leave it null, read
as the empty string here). -/

inductive OpType where
  | simpleOp (c : Char)
  | andOp
  | orOp
  | notOp
deriving DecidableEq, Repr

inductive WExpr where
  | columnRef (name : String)
  | litInt (i : Int)
  | litString (s : String)
  | opExpr (op : OpType) (e1 e2 : WExpr)
  | star
deriving DecidableEq, Repr

def exprName : WExpr → String
  | .columnRef n => n
  | .litString s => s
  | _ => ""

def strBytes (s : String) : List Nat := s.data.map Char.toNat

/-- `std::map::insert(pair)`: keeps the existing entry if the key is
present, appends otherwise. -/
def vdInsert (m : List (String × Value)) (k : String) (v : Value) :
    List (String × Value) :=
  if (m.lookup k).isSome then m else m ++ [(k, v)]

/-- `std::map::insert(first, last)` — range insert, skipping present keys. -/
def vdInsertAll (m : List (String × Value)) (src : List (String × Value)) :
    List (String × Value) :=
  src.foldl (fun acc kv => vdInsert acc kv.1 kv.2) m

/-- `SQLExec::get_where_conjunction` (part_003:1956): only `kExprOperator`
nodes are admitted; a `SIMPLE_OP` (the operator character is never
inspected) takes `expr->name` as the column and an INT or TEXT literal on
the right; `AND` recurses into both children and merges them with
`std::map::insert` (left range first, right range twice — the second
range-insert is a no-op).  Everything else throws.  (The source appends
`expr2->type` / `opType` to the message via `const char* + int` pointer
arithmetic; the message text here is the literal prefix.) -/
def getWhereConjunction : WExpr → Except String (List (String × Value))
  | .opExpr (.simpleOp _) e1 e2 =>
      match e2 with
      | .litInt i => .ok [(exprName e1, Value.VInt i)]
      | .litString s => .ok [(exprName e1, Value.VText (strBytes s))]
      | _ => .error "Only supports INT and TEXT expression types, not "
  | .opExpr .andOp e1 e2 => do
      let left ← getWhereConjunction e1
      let right ← getWhereConjunction e2
      .ok (vdInsertAll (vdInsertAll (vdInsertAll [] left) right) right)
  | .opExpr _ _ _ => .error "Only supports AND conjunctions, not "
  | _ => .error "Invalid where clause expression"

/-- The parse-tree shapes the function accepts: binary simple-operator
comparisons with an INT or TEXT literal on the right, joined by binary
`AND`. -/
def goodShape : WExpr → Bool
  | .opExpr (.simpleOp _) _ e2 =>
      match e2 with
      | .litInt _ => true
      | .litString _ => true
      | _ => false
  | .opExpr .andOp e1 e2 => goodShape e1 && goodShape e2
  | _ => false

/-- The `column = literal` pairs of the conjunction, left to right. -/
def flatPairs : WExpr → List (String × Value)
  | .opExpr (.simpleOp _) e1 e2 =>
      match e2 with
      | .litInt i => [(exprName e1, Value.VInt i)]
      | .litString s => [(exprName e1, Value.VText (strBytes s))]
      | _ => []
  | .opExpr .andOp e1 e2 => flatPairs e1 ++ flatPairs e2
  | _ => []

theorem lookup_vdInsert (m : List (String × Value)) (k : String) (v : Value)
    (k' : String) :
    (vdInsert m k v).lookup k' =
      ((m.lookup k').or (if k' = k then some v else none)) := by
  simp only [vdInsert]
  by_cases hm : (m.lookup k).isSome
  · rw [if_pos hm]
    by_cases hk : k' = k
    · subst hk
      obtain ⟨w, hw⟩ := Option.isSome_iff_exists.mp hm
      rw [hw]
      rfl
    · rw [if_neg hk]
      cases m.lookup k' <;> rfl
  · rw [if_neg hm]
    rw [List.lookup_append]
    by_cases hk : k' = k
    · subst hk
      simp [List.lookup]
    · simp only [if_neg hk]
      have hbe : (k' == k) = false := beq_eq_false_iff_ne.mpr hk
      have : ([(k, v)] : List (String × Value)).lookup k' = none := by
        simp [List.lookup, hbe]
      rw [this]

theorem lookup_vdInsertAll (src m : List (String × Value)) (k : String) :
    (vdInsertAll m src).lookup k = ((m.lookup k).or (src.lookup k)) := by
  induction src generalizing m with
  | nil =>
      show m.lookup k = (m.lookup k).or none
      cases m.lookup k <;> rfl
  | cons kv rest ih =>
      obtain ⟨k0, v0⟩ := kv
      show (vdInsertAll (vdInsert m k0 v0) rest).lookup k = _
      rw [ih, lookup_vdInsert]
      by_cases hk : k = k0
      · subst hk
        simp [List.lookup]
        cases m.lookup k <;> rfl
      · have hbe : (k == k0) = false := beq_eq_false_iff_ne.mpr hk
        have : ((k0, v0) :: rest : List (String × Value)).lookup k
            = rest.lookup k := by
          simp [List.lookup, hbe]
        rw [this, if_neg hk]
        cases m.lookup k <;> rfl

def c6and : WExpr :=
  .opExpr .andOp
    (.opExpr (.simpleOp (Char.ofNat 61)) (.columnRef "a") (.litInt 1))
    (.opExpr (.simpleOp (Char.ofNat 61)) (.columnRef "a") (.litInt 2))

def c6lt : WExpr :=
  .opExpr (.simpleOp (Char.ofNat 60)) (.columnRef "a") (.litInt 5)

/-- Claim C6, counterexample: on `a = 1 AND a = 2` the function succeeds
with the FIRST literal bound to `a` (the claim says the last occurrence
wins), and on `a < 5` — a non-equality operator — it succeeds instead of
raising an error (the operator character is never inspected). -/
theorem C6_counterexample :
    ∃ d, getWhereConjunction c6and = .ok d ∧
      d.lookup "a" = some (Value.VInt 1) ∧
      ¬ d.lookup "a" = some (Value.VInt 2) ∧
      getWhereConjunction c6lt = .ok [("a", Value.VInt 5)] := by
  refine ⟨_, rfl, ?_, ?_, rfl⟩
  · rfl
  · decide

/-- Claim C6 (amended): get_where_conjunction accepts exactly parse trees
built from binary simple-operator comparisons (column on the left, INT or
TEXT literal on the right) joined by binary AND — the operator character
is never checked, so `<`, `>` etc. are accepted like `=` — and raises an
error for every other shape; when the same column occurs more than once
in the conjunction, the literal from its FIRST occurrence (in left-to-
right order) is the one kept, because `std::map::insert` never
overwrites an existing key. -/
theorem C6_where_conjunction_amended (e : WExpr) :
    ((getWhereConjunction e).isOk = true ↔ goodShape e = true) ∧
    (∀ d, getWhereConjunction e = .ok d → ∀ k,
      d.lookup k = (flatPairs e).lookup k) := by
  induction e with
  | columnRef n =>
      refine ⟨by simp [getWhereConjunction, goodShape, Except.isOk,
        Except.toBool], fun d hd => ?_⟩
      simp [getWhereConjunction] at hd
  | litInt i =>
      refine ⟨by simp [getWhereConjunction, goodShape, Except.isOk,
        Except.toBool], fun d hd => ?_⟩
      simp [getWhereConjunction] at hd
  | litString s =>
      refine ⟨by simp [getWhereConjunction, goodShape, Except.isOk,
        Except.toBool], fun d hd => ?_⟩
      simp [getWhereConjunction] at hd
  | star =>
      refine ⟨by simp [getWhereConjunction, goodShape, Except.isOk,
        Except.toBool], fun d hd => ?_⟩
      simp [getWhereConjunction] at hd
  | opExpr op e1 e2 ih1 ih2 =>
      cases op with
      | simpleOp c =>
          cases e2 with
          | columnRef n =>
              refine ⟨by simp [getWhereConjunction, goodShape, Except.isOk,
                Except.toBool], fun d hd => ?_⟩
              simp [getWhereConjunction] at hd
          | star =>
              refine ⟨by simp [getWhereConjunction, goodShape, Except.isOk,
                Except.toBool], fun d hd => ?_⟩
              simp [getWhereConjunction] at hd
          | opExpr op' e21 e22 =>
              refine ⟨by simp [getWhereConjunction, goodShape, Except.isOk,
                Except.toBool], fun d hd => ?_⟩
              simp [getWhereConjunction] at hd
          | litInt i =>
              refine ⟨by simp [getWhereConjunction, goodShape, Except.isOk,
                Except.toBool], fun d hd => ?_⟩
              simp [getWhereConjunction] at hd
              subst hd
              intro k
              rfl
          | litString s =>
              refine ⟨by simp [getWhereConjunction, goodShape, Except.isOk,
                Except.toBool], fun d hd => ?_⟩
              simp [getWhereConjunction] at hd
              subst hd
              intro k
              rfl
      | orOp =>
          refine ⟨by simp [getWhereConjunction, goodShape, Except.isOk,
            Except.toBool], fun d hd => ?_⟩
          simp [getWhereConjunction] at hd
      | notOp =>
          refine ⟨by simp [getWhereConjunction, goodShape, Except.isOk,
            Except.toBool], fun d hd => ?_⟩
          simp [getWhereConjunction] at hd
      | andOp =>
          constructor
          · cases h1 : getWhereConjunction e1 with
            | error s1 =>
                have g1 : goodShape e1 = false := by
                  cases hg : goodShape e1
                  · rfl
                  · have hok := ih1.1.mpr hg
                    rw [h1] at hok
                    simp [Except.isOk, Except.toBool] at hok
                simp [getWhereConjunction, h1, goodShape, g1, bind,
                  Except.bind, Except.isOk, Except.toBool]
            | ok l =>
                have g1 : goodShape e1 = true := ih1.1.mp (by rw [h1]; rfl)
                cases h2 : getWhereConjunction e2 with
                | error s2 =>
                    have g2 : goodShape e2 = false := by
                      cases hg : goodShape e2
                      · rfl
                      · have hok := ih2.1.mpr hg
                        rw [h2] at hok
                        simp [Except.isOk, Except.toBool] at hok
                    simp [getWhereConjunction, h1, h2, goodShape, g1, g2,
                      bind, Except.bind, Except.isOk, Except.toBool]
                | ok r =>
                    have g2 : goodShape e2 = true := ih2.1.mp (by rw [h2]; rfl)
                    simp [getWhereConjunction, h1, h2, goodShape, g1, g2,
                      bind, Except.bind, Except.isOk, Except.toBool]
          · intro d hd k
            cases h1 : getWhereConjunction e1 with
            | error s1 =>
                simp [getWhereConjunction, h1, bind, Except.bind] at hd
            | ok l =>
                cases h2 : getWhereConjunction e2 with
                | error s2 =>
                    simp [getWhereConjunction, h1, h2, bind, Except.bind] at hd
                | ok r =>
                    simp [getWhereConjunction, h1, h2, bind, Except.bind] at hd
                    subst hd
                    rw [lookup_vdInsertAll, lookup_vdInsertAll,
                      lookup_vdInsertAll]
                    have hl := ih1.2 l h1 k
                    have hr := ih2.2 r h2 k
                    rw [show (([] : List (String × Value)).lookup k) = none
                      from rfl, hl, hr]
                    rw [show flatPairs (.opExpr .andOp e1 e2)
                      = flatPairs e1 ++ flatPairs e2 from rfl]
                    rw [List.lookup_append]
                    cases (flatPairs e1).lookup k <;>
                      cases (flatPairs e2).lookup k <;> rfl

/-- Witness for C6: on `a = 1 AND a = 2` the amended theorem yields
success and the predicate binding `a` to its first literal. -/
theorem C6_witness :
    (getWhereConjunction c6and).isOk = true ∧
    (∀ d, getWhereConjunction c6and = .ok d →
      d.lookup "a" = some (Value.VInt 1)) := by
  have h := C6_where_conjunction_amended c6and
  refine ⟨h.1.mpr (by decide), fun d hd => ?_⟩
  rw [h.2 d hd "a"]
  decide

/-! ## SQLExec::show_tables — two variants

The catalog `_tables` relation is abstracted to the list of its
`table_name` values, in scan order.  `Tables::TABLE_NAME = "_tables"`,
`Columns::TABLE_NAME = "_columns"`, `Indices::TABLE_NAME = "_indices"`. -/

def catalogNames : List String := ["_tables", "_columns", "_indices"]

def isUserName (n : String) : Bool :=
  n != "_tables" && n != "_columns" && n != "_indices"

/-- `SQLExec::show_tables` of src/SQLExec.cpp:425: filters the three
catalog names out of the scan and counts the rows it actually keeps
(`size++` inside the filter branch). Returns (result rows, message). -/
def showTablesCpp (names : List String) : List String × String :=
  let rows := names.filter isUserName
  (rows, "successfully returned " ++ toString rows.length ++ " rows")

/-- `SQLExec::show_tables` of part_003:2235: computes
`u_long n = handles->size() - 3` BEFORE filtering (unsigned 64-bit
subtraction, wrapping below zero), then filters the same three names. -/
def showTables003 (names : List String) : List String × String :=
  let n : Nat := (names.length + 18446744073709551616 - 3) % 18446744073709551616
  let rows := names.filter isUserName
  (rows, "successfully returned " ++ toString n ++ " rows")

/-- Claim C8, counterexample: with only two catalog rows present
(`_tables`, `_columns`), the part_003 variant returns zero rows but its
message reports 2^64 − 1 rows. -/
theorem C8_counterexample :
    (showTables003 ["_tables", "_columns"]).1 = [] ∧
    (showTables003 ["_tables", "_columns"]).2 =
      "successfully returned 18446744073709551615 rows" ∧
    ¬ (showTables003 ["_tables", "_columns"]).2 =
      "successfully returned 0 rows" := by
  refine ⟨rfl, rfl, ?_⟩
  decide

/-- Claim C8 (amended): both variants hide the three catalog names from
the result rows; the SQLExec.cpp variant's message always reports the
number of rows actually returned; the part_003 variant computes its
count as `handles->size() - 3` in unsigned arithmetic BEFORE filtering,
so its message is correct exactly when the scan holds three catalog
rows, and wrong otherwise (wrapping below zero when fewer than three
are present). -/
theorem C8_show_tables_amended (names : List String)
    (h64 : names.length < 18446744073709551616) :
    (∀ m ∈ (showTablesCpp names).1, m ∉ catalogNames) ∧
    (∀ m ∈ (showTables003 names).1, m ∉ catalogNames) ∧
    (showTablesCpp names).2 =
      "successfully returned " ++ toString (showTablesCpp names).1.length
        ++ " rows" ∧
    (names.length = (names.filter isUserName).length + 3 →
      (showTables003 names).2 =
        "successfully returned " ++ toString (showTables003 names).1.length
          ++ " rows") := by
  have hmem : ∀ m ∈ names.filter isUserName, m ∉ catalogNames := by
    intro m hm
    rw [List.mem_filter] at hm
    have hu := hm.2
    simp only [isUserName, Bool.and_eq_true, bne_iff_ne, ne_eq] at hu
    simp only [catalogNames, List.mem_cons, List.not_mem_nil, or_false]
    intro hc
    rcases hc with hc | hc | hc
    · exact hu.1.1 hc
    · exact hu.1.2 hc
    · exact hu.2 hc
  refine ⟨hmem, hmem, rfl, fun h3 => ?_⟩
  have e1 : (showTables003 names).1 = names.filter isUserName := rfl
  have e2 : (showTables003 names).2 = "successfully returned "
      ++ toString ((names.length + 18446744073709551616 - 3)
        % 18446744073709551616) ++ " rows" := rfl
  have hn : (names.length + 18446744073709551616 - 3)
      % 18446744073709551616 = (names.filter isUserName).length := by
    omega
  rw [e2, e1, hn]

/-- Witness for C8: a scan holding the three catalog rows plus one user
table, where both variants report "successfully returned 1 rows". -/
theorem C8_witness :
    (showTablesCpp ["_tables", "_columns", "_indices", "foo"]).2 =
      "successfully returned " ++ toString
        (showTablesCpp ["_tables", "_columns", "_indices", "foo"]).1.length
        ++ " rows" ∧
    (showTables003 ["_tables", "_columns", "_indices", "foo"]).2 =
      "successfully returned " ++ toString
        (showTables003 ["_tables", "_columns", "_indices", "foo"]).1.length
        ++ " rows" := by
  have h := C8_show_tables_amended ["_tables", "_columns", "_indices", "foo"]
    (by decide)
  exact ⟨h.2.2.1, h.2.2.2 (by decide)⟩

/-! ## SQLExec::drop_table — two variants

Catalog state abstraction: `_tables` rows by table name, `_columns` rows
as (table, column) pairs, `_indices` rows and B+Tree files as (table,
index) pairs, heap files by table name.  `select(&where)` on the
`table_name` key is rendered as the corresponding filter (the predicate-
ignoring defect of the heap `select` is treated separately under the
heap-select claim); the rejection path at issue here runs before any
select. `tables->del(*handles->begin())` deletes one row: `List.erase`. -/

structure CatalogState where
  tablesRows : List String
  columnsRows : List (String × String)
  indicesRows : List (String × String)
  heapFiles : List String
  btreeFiles : List (String × String)
deriving DecidableEq, Repr

/-- `SQLExec::drop_table` of part_003:2126: throws
`SQLExecError("cannot drop a schema table")` on `_tables`/`_columns`;
otherwise drops each index's B+Tree file, deletes the `_indices` rows,
deletes the `_columns` rows, drops the heap file, and erases the
`_tables` row. -/
def dropTable003 (name : String) (st : CatalogState) :
    Except String String × CatalogState :=
  if name = "_tables" ∨ name = "_columns" then
    (.error "cannot drop a schema table", st)
  else
    let st1 := { st with
      btreeFiles := st.btreeFiles.filter (fun ti => ti.1 != name),
      indicesRows := st.indicesRows.filter (fun r => r.1 != name) }
    let st2 := { st1 with
      columnsRows := st1.columnsRows.filter (fun r => r.1 != name) }
    let st3 := { st2 with heapFiles := st2.heapFiles.filter (fun f => f != name) }
    let st4 := { st3 with tablesRows := st3.tablesRows.erase name }
    (.ok ("dropped " ++ name), st4)

/-- `SQLExec::drop_table` of src/SQLExec.cpp:327: on `_tables`/`_columns`
it RETURNS `new QueryResult("Cannot drop a schema table!")` — a success
result, no throw.  Otherwise it drops the heap file first, deletes the
`_columns` rows, and erases the `_tables` row; indices are not touched. -/
def dropTableCpp (name : String) (st : CatalogState) :
    Except String String × CatalogState :=
  if name = "_tables" ∨ name = "_columns" then
    (.ok "Cannot drop a schema table!", st)
  else
    let st1 := { st with heapFiles := st.heapFiles.filter (fun f => f != name) }
    let st2 := { st1 with
      columnsRows := st1.columnsRows.filter (fun r => r.1 != name) }
    let st3 := { st2 with tablesRows := st2.tablesRows.erase name }
    (.ok ("dropped " ++ name), st3)

def c9state : CatalogState :=
  { tablesRows := ["_tables", "_columns", "foo"],
    columnsRows := [("_tables", "table_name"), ("foo", "a")],
    indicesRows := [("foo", "ix")],
    heapFiles := ["_tables", "_columns", "foo"],
    btreeFiles := [("foo", "ix")] }

/-- Claim C9, counterexample: `DROP TABLE _tables` in src/SQLExec.cpp
produces a success QueryResult carrying "Cannot drop a schema table!"
instead of raising an error (the part_003 variant does throw). -/
theorem C9_counterexample :
    dropTableCpp "_tables" c9state = (.ok "Cannot drop a schema table!", c9state) ∧
    (dropTableCpp "_tables" c9state).1.isOk = true := by
  exact ⟨rfl, rfl⟩

/-- Claim C9 (amended): DROP TABLE on `_tables` or `_columns` leaves the
whole catalog state — catalog rows, heap files and index files —
unchanged in both variants; the part_003 variant rejects by raising
`SQLExecError "cannot drop a schema table"`, but the SQLExec.cpp variant
instead returns a success QueryResult with message
"Cannot drop a schema table!". -/
theorem C9_drop_schema_table_amended (name : String) (st : CatalogState)
    (h : name = "_tables" ∨ name = "_columns") :
    dropTable003 name st = (.error "cannot drop a schema table", st) ∧
    dropTableCpp name st = (.ok "Cannot drop a schema table!", st) := by
  constructor
  · unfold dropTable003
    rw [if_pos h]
  · unfold dropTableCpp
    rw [if_pos h]

/-- Witness for C9: the amended theorem applied to `_columns` on the
concrete catalog state. -/
theorem C9_witness :
    dropTable003 "_columns" c9state =
      (.error "cannot drop a schema table", c9state) ∧
    dropTableCpp "_columns" c9state =
      (.ok "Cannot drop a schema table!", c9state) :=
  C9_drop_schema_table_amended "_columns" c9state (Or.inr rfl)

/-! ## SQLExec::insert (part_003:1791)

The statement carries the table name, an optional explicit column list
and the VALUES expressions.  The base relation is the list of its rows
(a row is an association list, the `std::map` ValueDict).  Index
maintenance after the base-table insert is rendered as always
succeeding; the property at issue is decided before that phase. -/

structure InsertStmt where
  tableName : String
  columns : Option (List String)
  values : List WExpr

/-- `row[colNames.at(i)] = vals.at(i)` — `std::map::operator[]` upsert:
overwrites an existing key, appends otherwise. -/
def vdSet (m : List (String × Value)) (k : String) (v : Value) :
    List (String × Value) :=
  if (m.lookup k).isSome then
    m.map (fun kv => if kv.1 = k then (k, v) else kv)
  else m ++ [(k, v)]

/-- The value-binding loop: one iteration per column name; running out of
VALUES (`i >= statement->values->size()`) jumps to EXIT, which throws
`DbRelationError("don't know how to handle NULLs, defaults, etc. yet")`;
a non-INT, non-string literal throws
`SQLExecError("Unsupported data type")`. -/
def insertGo : List String → List WExpr → Except String (List Value)
  | [], _ => .ok []
  | _ :: cols, [] => .error "don't know how to handle NULLs, defaults, etc. yet"
  | _ :: cols, v :: vs =>
      match v with
      | .litInt i => do
          let rest ← insertGo cols vs
          .ok (Value.VInt i :: rest)
      | .litString s => do
          let rest ← insertGo cols vs
          .ok (Value.VText (strBytes s) :: rest)
      | _ => .error "Unsupported data type"

/-- `row[colNames.at(i)] = vals.at(i)` for `i = 0..colNames.size()-1`. -/
def buildRow (cols : List String) (vals : List Value) :
    List (String × Value) :=
  (cols.zip vals).foldl (fun acc kv => vdSet acc kv.1 kv.2) []

/-- `SQLExec::insert`: column names come from the statement's column
list when given, else from the table; values are bound by `insertGo`;
then the row map is built and, when `row.size() < 2`, control jumps to
EXIT and throws `DbRelationError` — before any `table.insert`.
Otherwise the row is appended to the relation and the success message is
composed from the number of indices on the table. -/
def sqlInsert (stmt : InsertStmt) (tableCols indexNames : List String)
    (tableRows : List (List (String × Value))) :
    Except String String × List (List (String × Value)) :=
  let colNames := stmt.columns.getD tableCols
  match insertGo colNames stmt.values with
  | .error e => (.error e, tableRows)
  | .ok vals =>
      let row := buildRow colNames vals
      if row.length < 2 then
        (.error "don't know how to handle NULLs, defaults, etc. yet",
          tableRows)
      else
        let numIndices := indexNames.length
        (.ok ("successfully inserted 1 row into " ++ stmt.tableName ++
          (if numIndices = 0 then "" else " and " ++ toString numIndices ++
            (if numIndices = 1 then " index" else " indices"))),
          tableRows ++ [row])

/-- Claim C10: whenever value binding succeeds but the bound row map has
fewer than two entries — in particular any INSERT into a single-column
table, or an INSERT supplying one column — `SQLExec::insert` raises
"don't know how to handle NULLs, defaults, etc. yet" and the relation is
left unchanged: nothing is inserted even though every column was
supplied with a valid value. -/
theorem C10_insert_rejects_small_rows (stmt : InsertStmt)
    (tableCols indexNames : List String)
    (tableRows : List (List (String × Value))) (vals : List Value)
    (hgo : insertGo (stmt.columns.getD tableCols) stmt.values = .ok vals)
    (hrow : (buildRow (stmt.columns.getD tableCols) vals).length < 2) :
    sqlInsert stmt tableCols indexNames tableRows =
      (.error "don't know how to handle NULLs, defaults, etc. yet",
        tableRows) := by
  unfold sqlInsert
  simp only [hgo]
  rw [if_pos hrow]

/-- Witness for C10: `INSERT INTO foo VALUES (7)` on the single-column
table `foo(id)` with an index present and an empty relation fails and
inserts nothing. -/
theorem C10_witness :
    sqlInsert ⟨"foo", none, [.litInt 7]⟩ ["id"] ["ix"] [] =
      (.error "don't know how to handle NULLs, defaults, etc. yet", []) :=
  C10_insert_rejects_small_rows ⟨"foo", none, [.litInt 7]⟩ ["id"] ["ix"] []
    [Value.VInt 7] rfl (by decide)
